import Mathlib

/-!
# DCF77 receiver firmware: edge ring, pulse extraction, scoring, frame decoding

A shallow embedding of `src/main.cpp`.

* C `int` values are `Int`; indices and counters that the code never lets go
  negative (`head`, `count`, loop indices) are `Nat`.
* `uint32_t` timestamps are `Nat`; the only arithmetic on them is the
  wrapping subtraction `u32sub`.
* A `const uint8_t*` argument is a function `Nat → Nat` (the memory read
  through the pointer); `&bits[k]` is the shifted function.
* Arrays filled by `a[cnt++] = x` are lists that grow at the end.
-/

namespace DCF77

/-! ## Constants (`#define`s of main.cpp) -/

def BUF_SZ : Nat := 2048
def DEBOUNCE_US : Nat := 20000
def FALSE_MIN_US : Nat := 60000
def FALSE_MAX_US : Nat := 140000
def TRUE_MIN_US : Nat := 160000
def TRUE_MAX_US : Nat := 260000
def TICK59_MIN_US : Nat := 1200000

/-- Subtraction of two `uint32_t` values, wrapping modulo `2^32`. -/
def u32sub (a b : Nat) : Nat := (a % 2 ^ 32 + 2 ^ 32 - b % 2 ^ 32) % 2 ^ 32

/-! ## The edge ring: irq_handler and snapshot (main.cpp 26-65) -/

/-- The globals `times`, `vals`, `head`, `count`, `last_edge_us`. -/
structure Ring where
  times : Nat → Nat
  vals : Nat → Nat
  head : Nat
  count : Nat
  last_edge_us : Nat

/-- The zero-initialised globals at boot. -/
def boot : Ring := ⟨fun _ => 0, fun _ => 0, 0, 0, 0⟩

/-- The test of main.cpp 39:
`last_edge_us && (now - last_edge_us) < DEBOUNCE_US`. -/
def debounced (s : Ring) (now : Nat) : Bool :=
  s.last_edge_us != 0 && decide (u32sub now s.last_edge_us < DEBOUNCE_US)

/-- The function `irq_handler` of main.cpp 37-49; `now` is the value read from
`micros()` and `level` the value read from `digitalRead(PIN_OUT)`. -/
def irq_handler (s : Ring) (now level : Nat) : Ring :=
  if debounced s now then s else
  { times := fun i => if i = s.head then now else s.times i
    vals := fun i => if i = s.head then level else s.vals i
    head := (s.head + 1) % BUF_SZ
    count := if s.count < BUF_SZ then s.count + 1 else s.count
    last_edge_us := now }

/-- The function `snapshot` of main.cpp 51-65: the copied timestamps `arr_t[0..c)`,
the copied levels `arr_v[0..c)` and `c`. In `(h - c + BUF_SZ) % BUF_SZ` the clamp
just before gives `c ≤ BUF_SZ`, so the `int` sum is `h + BUF_SZ - c ≥ 0`. -/
def snapshot (s : Ring) : List Nat × List Nat × Nat :=
  let c := if s.count > BUF_SZ then BUF_SZ else s.count
  let h := s.head
  let start := (h + BUF_SZ - c) % BUF_SZ
  ((List.range c).map (fun i => s.times ((start + i) % BUF_SZ)),
   (List.range c).map (fun i => s.vals ((start + i) % BUF_SZ)), c)

/-- The ring after a sequence of interrupts `(now, level)`, starting from `s`. -/
def run_irq (s : Ring) (evs : List (Nat × Nat)) : Ring :=
  evs.foldl (fun s e => irq_handler s e.1 e.2) s

/-- One interrupt, together with the list of records accepted so far. -/
def irq_trace_step (p : Ring × List (Nat × Nat)) (e : Nat × Nat) :
    Ring × List (Nat × Nat) :=
  (irq_handler p.1 e.1 e.2, if debounced p.1 e.1 then p.2 else p.2 ++ [e])

/-- The ring reached from boot by `evs`, and the records that were accepted (not
debounced), in arrival order. -/
def irq_trace (evs : List (Nat × Nat)) : Ring × List (Nat × Nat) :=
  evs.foldl irq_trace_step (boot, [])

/-- The ring `s` holds the accepted records `acc`. -/
def RingInv (s : Ring) (acc : List (Nat × Nat)) : Prop :=
  s.head = acc.length % BUF_SZ ∧ s.count = min acc.length BUF_SZ ∧
  (∀ i e, acc[i]? = some e → acc.length ≤ i + BUF_SZ →
    s.times (i % BUF_SZ) = e.1 ∧ s.vals (i % BUF_SZ) = e.2) ∧
  s.last_edge_us = (acc.getLast?.map Prod.fst).getD 0

/-! ## decode_bcd, decode_frame (main.cpp 67-129) -/

/-- One iteration of the loop of `decode_bcd`: the pair is `(s, pc)`. -/
def decode_bcd_step (arr : Nat → Nat) (weights : List Int) (st : Int × Nat) (i : Nat) :
    Int × Nat :=
  if arr i ≠ 0 then (st.1 + weights.getD i 0, st.2 + 1) else st

/-- The function `decode_bcd(arr, weights, len, parity)` of main.cpp 67-82. -/
def decode_bcd (arr : Nat → Nat) (weights : List Int) (len : Nat) (parity : Bool) : Int :=
  let st := (List.range len).foldl (decode_bcd_step arr weights) (0, 0)
  if parity && (st.2 % 2 == 0 && arr len != 0) then -1 else st.1

/-- The inline loops of `decode_frame` (main.cpp 94-121):
`for (i = 0; i < len; i++) if (bits[off + i]) acc += weights[i];`. -/
def sum_loop (bits : Nat → Nat) (off : Nat) (weights : List Int) (len : Nat) : Int :=
  (List.range len).foldl
    (fun acc i => if bits (off + i) ≠ 0 then acc + weights.getD i 0 else acc) 0

/-- The function `decode_frame` of main.cpp 84-129. The six out-parameters are
written only on the path that returns `true`; the result is `some` of them
`(min, hr, day, weekday, mon, year)` on that path and `none` for `false`. -/
def decode_frame (bits : Nat → Nat) : Option (Int × Int × Int × Int × Int × Int) :=
  if bits 0 ≠ 0 ∨ bits 20 ≠ 1 then none else
  let mins := decode_bcd (fun i => bits (21 + i)) [1, 2, 4, 8, 10, 20, 40, 80] 7 true
  if mins < 0 then none else
  let hrs := decode_bcd (fun i => bits (29 + i)) [1, 2, 4, 8, 10, 20, 40] 6 true
  if hrs < 0 then none else
  let day := sum_loop bits 36 [1, 2, 4, 8, 10, 20] 6
  let weekday := sum_loop bits 42 [1, 2, 4] 3
  let month := sum_loop bits 45 [1, 2, 4, 8, 10] 5
  let year := sum_loop bits 50 [1, 2, 4, 8, 10, 20, 40, 80] 8
  some (mins, hrs, day, weekday, month, year)

/-- A frame given as a list of bits, read as memory (0 beyond the end). -/
def frame_of (l : List Nat) : Nat → Nat := fun i => l.getD i 0

/-! ## analyze_and_diagnose (main.cpp 131-268) -/

/-- The locals of the extraction loop (main.cpp 145-151). `low_count` and
`rising_count` are the lengths of `low_durs` (and `low_ts`) and `rising_times`. -/
structure Extract where
  low_durs : List Nat
  low_ts : List Nat
  rising_times : List Nat
  low_start : Nat
  low_active : Bool

/-- The branches of the extraction loop body (main.cpp 157-169) on the values
`a = vlist[i]`, `b = vlist[i + 1]`, `tb = tlist[i + 1]` read at its top. -/
def pair_step (a b tb : Nat) (st : Extract) : Extract :=
  if a = 1 ∧ b = 0 then
    { st with low_start := tb, low_active := true }
  else if a = 0 ∧ b = 1 ∧ st.low_active = true then
    let d := u32sub tb st.low_start
    let st1 : Extract :=
      if d > 0 then
        { st with low_durs := st.low_durs ++ [d], low_ts := st.low_ts ++ [st.low_start] }
      else st
    { st1 with low_active := false, rising_times := st1.rising_times ++ [tb] }
  else st

/-- The body of the extraction loop (main.cpp 153-169) at index `i`. -/
def extract_step (tlist vlist : List Nat) (st : Extract) (i : Nat) : Extract :=
  pair_step (vlist.getD i 0) (vlist.getD (i + 1) 0) (tlist.getD (i + 1) 0) st

/-- The extraction loop `for (i = 0; i < n - 1; i++)` (main.cpp 148-170). -/
def extract (tlist vlist : List Nat) (n : Nat) : Extract :=
  (List.range (n - 1)).foldl (extract_step tlist vlist) ⟨[], [], [], 0, false⟩

/-- The test `d >= FALSE_MIN_US && d <= FALSE_MAX_US`. -/
def is_short (d : Nat) : Bool := decide (FALSE_MIN_US ≤ d) && decide (d ≤ FALSE_MAX_US)

/-- The test `d >= TRUE_MIN_US && d <= TRUE_MAX_US`. -/
def is_long (d : Nat) : Bool := decide (TRUE_MIN_US ≤ d) && decide (d ≤ TRUE_MAX_US)

/-- The body of the classification loop (main.cpp 186-192) on
`(short_count, long_count)`. -/
def classify_step (low_durs : List Nat) (c : Int × Int) (i : Nat) : Int × Int :=
  if is_short (low_durs.getD i 0) then (c.1 + 1, c.2)
  else if is_long (low_durs.getD i 0) then (c.1, c.2 + 1)
  else c

/-- The body of the gap loop (main.cpp 196-204) on `(sec_like, tick59_like)`. -/
def gap_step (rising_times : List Nat) (c : Int × Int) (i : Nat) : Int × Int :=
  let gap := u32sub (rising_times.getD (i + 1) 0) (rising_times.getD i 0)
  let c1 : Int × Int := if 900000 ≤ gap ∧ gap ≤ 1100000 then (c.1 + 1, c.2) else c
  if gap ≥ TICK59_MIN_US then (c1.1, c1.2 + 1) else c1

/-! ### Single-precision ratios

`(float)a / b` with `int` operands of magnitude below `2^24` converts both operands
exactly and rounds the quotient to the nearest binary32 value, ties to even
(IEEE 754). A binary32 value is kept as `(m, k)`, meaning `m / 2^k`. The comparisons
`x >= 0.7` etc. convert the `float` exactly to `double` and compare with the `double`
nearest to the decimal literal. -/

/-- The least `k ≥ k0` (within `fuel` steps) with `2^23 * b ≤ a * 2^k`: the shift
that brings `a / b` to a 24-bit significand. -/
def norm_shift (a b : Nat) : Nat → Nat → Nat
  | 0, k => k
  | fuel + 1, k => if 2 ^ 23 * b ≤ a * 2 ^ k then k else norm_shift a b fuel (k + 1)

/-- The quotient `num / b` rounded to the nearest integer, ties to even. -/
def round_half_even (num b : Nat) : Nat :=
  let q := num / b
  let r := num % b
  if 2 * r < b then q else if b < 2 * r then q + 1 else if q % 2 = 0 then q else q + 1

/-- The binary32 value of `(float)a / b` for `|a| < 2^24`, `0 < b < 2^24`. -/
def f32_div (a : Int) (b : Nat) : Int × Nat :=
  if a = 0 then (0, 0) else
  let k := norm_shift a.natAbs b 48 0
  (a.sign * (round_half_even (a.natAbs * 2 ^ k) b : Int), k)

/-- The comparison `x >= c` of a binary32 `x = m / 2^k` with a double `c = num / 2^e`. -/
def f32_ge (x : Int × Nat) (c : Int × Nat) : Bool := decide (c.1 * 2 ^ x.2 ≤ x.1 * 2 ^ c.2)

/-- The comparison `x <= c` of a binary32 `x = m / 2^k` with a double `c = num / 2^e`. -/
def f32_le (x : Int × Nat) (c : Int × Nat) : Bool := decide (x.1 * 2 ^ c.2 ≤ c.1 * 2 ^ x.2)

/-- The double literal `0.7` = 0x3FE6666666666666. -/
def dbl_0_7 : Int × Nat := (6305039478318694, 53)
/-- The double literal `0.5`. -/
def dbl_0_5 : Int × Nat := (1, 1)
/-- The double literal `0.2` = 0x3FC999999999999A. -/
def dbl_0_2 : Int × Nat := (7205759403792794, 55)
/-- The double literal `0.4` = 0x3FD999999999999A. -/
def dbl_0_4 : Int × Nat := (7205759403792794, 54)

/-- The inner loop of main.cpp 214-226: `valid` after the loop. -/
def frame_valid (low_durs : List Nat) (start : Nat) : Bool :=
  (List.range 59).all (fun j => is_short (low_durs.getD (start + j) 0)
    || is_long (low_durs.getD (start + j) 0))

/-- The inner loop of main.cpp 214-226: `bits[0..59)` when `valid`. -/
def frame_bits (low_durs : List Nat) (start : Nat) : List Nat :=
  (List.range 59).map (fun j => if is_short (low_durs.getD (start + j) 0) then 0 else 1)

/-- The body of the frame search loop (main.cpp 209-238) at index `i`; the state is
the list of `(frame_mins[k], frame_hrs[k], frame_days[k])`, `frame_count` its length.
The loop condition `frame_count < 10` is the outer test. -/
def frame_step (low_durs low_ts : List Nat) (low_count : Nat)
    (frames : List (Int × Int × Int)) (i : Nat) : List (Int × Int × Int) :=
  if frames.length < 10 then
    let gap := u32sub (low_ts.getD (i + 1) 0) (low_ts.getD i 0)
    if gap ≥ TICK59_MIN_US then
      let start := i + 1
      if start + 59 ≤ low_count then
        if frame_valid low_durs start then
          match decode_frame (frame_of (frame_bits low_durs start)) with
          | some (min_val, hr_val, day_val, _, _, _) => frames ++ [(min_val, hr_val, day_val)]
          | none => frames
        else frames
      else frames
    else frames
  else frames

/-- The decoded frames found by the loop of main.cpp 207-238. -/
def find_frames (low_durs low_ts : List Nat) (low_count : Nat) : List (Int × Int × Int) :=
  (List.range (low_count - 1)).foldl (frame_step low_durs low_ts low_count) []

/-- Lines 240-242 of main.cpp: the `sec_like` points added to `q`. -/
def add_sec (q sec_like : Int) : Int :=
  if sec_like ≥ 10 then q + 40 else if sec_like ≥ 5 then q + 20
  else if sec_like ≥ 2 then q + 10 else q

/-- Line 243 of main.cpp: the `tick59_like` points added to `q`. -/
def add_tick (q tick59_like : Int) : Int := if tick59_like ≥ 1 then q + 20 else q

/-- Lines 244-245 of main.cpp: the `shortlong_ratio` points added to `q`. -/
def add_shortlong (q : Int) (shortlong_ratio : Int × Nat) : Int :=
  if f32_ge shortlong_ratio dbl_0_7 then q + 20
  else if f32_ge shortlong_ratio dbl_0_5 then q + 10 else q

/-- Lines 246-247 of main.cpp: the `other_ratio` points added to `q`. -/
def add_other (q : Int) (other_ratio : Int × Nat) : Int :=
  if f32_le other_ratio dbl_0_2 then q + 10
  else if f32_le other_ratio dbl_0_4 then q + 5 else q

/-- Line 248 of main.cpp: the frame points added to `q`. -/
def add_frame (q : Int) (frame_count : Nat) : Int := if frame_count > 0 then q + 10 else q

/-- The score of main.cpp 239-248 from the five measured quantities. -/
def score_of (sec_like tick59_like : Int) (shortlong_ratio other_ratio : Int × Nat)
    (frame_count : Nat) : Int :=
  add_frame (add_other (add_shortlong (add_tick (add_sec 0 sec_like) tick59_like)
    shortlong_ratio) other_ratio) frame_count

/-- What `snprintf(line, 32, ...)` stores of the formatted text: at most 31 characters. -/
def snprintf32 (s : String) : String := ⟨s.data.take 31⟩

/-- The conversion `%d`. -/
def fmt_d (x : Int) : String := toString x

/-- The conversion `%02d`: zero-padded to width 2. -/
def fmt_02d (x : Int) : String := if 0 ≤ x ∧ x < 10 then "0" ++ toString x else toString x

/-- The values `analyze_and_diagnose` computes on the path that reaches the score
(main.cpp 183-248). -/
structure Diag where
  pulse_count : Nat
  short_count : Int
  long_count : Int
  other : Int
  sec_like : Int
  tick59_like : Int
  frames : List (Int × Int × Int)
  score : Int

/-- Lines 183-248 of main.cpp on the extracted arrays. -/
def diagnose (ex : Extract) : Diag :=
  let low_count := ex.low_durs.length
  let rising_count := ex.rising_times.length
  let pulse_count := low_count
  let sl := (List.range pulse_count).foldl (classify_step ex.low_durs) (0, 0)
  let short_count := sl.1
  let long_count := sl.2
  let other : Int := (pulse_count : Int) - short_count - long_count
  let g := (List.range (rising_count - 1)).foldl (gap_step ex.rising_times) (0, 0)
  let shortlong_ratio := f32_div (short_count + long_count) pulse_count
  let other_ratio := f32_div other pulse_count
  let frames := find_frames ex.low_durs ex.low_ts low_count
  { pulse_count := pulse_count, short_count := short_count, long_count := long_count,
    other := other, sec_like := g.1, tick59_like := g.2, frames := frames,
    score := score_of g.1 g.2 shortlong_ratio other_ratio frames.length }

/-- The globals `quality_score`, `line1`, `line2`, `line3`. -/
structure Status where
  quality_score : Int
  line1 : String
  line2 : String
  line3 : String

/-- The status lines of main.cpp 249-262. -/
def status_of (d : Diag) : Status :=
  let q := d.score
  match d.frames with
  | (m, h, day) :: _ =>
    ⟨q, snprintf32 (fmt_d q), snprintf32 (fmt_02d h ++ ":" ++ fmt_02d m),
      snprintf32 (fmt_02d day ++ "/" ++ fmt_02d 0)⟩
  | [] =>
    if q ≥ 50 then ⟨q, snprintf32 (fmt_d q), snprintf32 "GOOD", snprintf32 "NO FRAME"⟩
    else if q ≥ 30 then
      ⟨q, snprintf32 (fmt_d q), snprintf32 "WEAK",
        snprintf32 (fmt_d d.short_count ++ "/" ++ fmt_d d.long_count)⟩
    else ⟨q, snprintf32 (fmt_d q), snprintf32 "NOISE", snprintf32 ""⟩

/-- The function `analyze_and_diagnose` after the snapshot (main.cpp 136-268), on the
snapshot arrays `tlist[0..n)`, `vlist[0..n)`. -/
def analyze (tlist vlist : List Nat) (n : Nat) : Status :=
  if n < 4 then ⟨0, snprintf32 "0", snprintf32 "NO SIG", snprintf32 ""⟩ else
  let ex := extract tlist vlist n
  if ex.low_durs.length = 0 then ⟨0, snprintf32 "0", snprintf32 "NO PULSE", snprintf32 ""⟩
  else status_of (diagnose ex)

/-- The function `analyze_and_diagnose` (main.cpp 131-268) on the ring. -/
def analyze_and_diagnose (s : Ring) : Status :=
  let snap := snapshot s
  analyze snap.1 snap.2.1 snap.2.2

/-! ## The scan of the edge window, as the specification words it -/

/-- The adjacent pair `(i, i+1)` is a `1→0` pair. -/
def is_fall (vlist : List Nat) (i : Nat) : Bool :=
  decide (vlist.getD i 0 = 1) && decide (vlist.getD (i + 1) 0 = 0)

/-- The adjacent pair `(i, i+1)` is a `0→1` pair. -/
def is_rise (vlist : List Nat) (i : Nat) : Bool :=
  decide (vlist.getD i 0 = 0) && decide (vlist.getD (i + 1) 0 = 1)

/-- The first `0→1` pair `(j, j+1)` of the window of `n` edges with `j ≥ j0`. -/
def first_rise (vlist : List Nat) (n j0 : Nat) : Option Nat :=
  (List.range' j0 (n - 1 - j0)).find? (is_rise vlist)

/-- The pulse of the pair `(i, i+1)`, if it is a `1→0` pair with a later `0→1` pair:
start at the 0-edge, duration up to the 1-edge of the first later `0→1` pair. -/
def pulse_at (tlist vlist : List Nat) (n i : Nat) : Option (Nat × Nat) :=
  if is_fall vlist i then
    (first_rise vlist n (i + 1)).map
      (fun j => (tlist.getD (i + 1) 0, tlist.getD (j + 1) 0 - tlist.getD (i + 1) 0))
  else none

/-- The specified pulse list `(start, duration)` of a window of `n` edges. -/
def scan_pulses (tlist vlist : List Nat) (n : Nat) : List (Nat × Nat) :=
  (List.range (n - 1)).filterMap (pulse_at tlist vlist n)

/-- The timestamps `tlist[i+1]` of every `0→1` pair `(i, i+1)` of the window. -/
def all_rises (tlist vlist : List Nat) (n : Nat) : List Nat :=
  ((List.range (n - 1)).filter (is_rise vlist)).map (fun i => tlist.getD (i + 1) 0)

/-- The timestamps `tlist[i+1]` of every `0→1` pair `(i, i+1)` of the first `k` pairs
that has a `1→0` pair somewhere before it. -/
def rises_after_fall (tlist vlist : List Nat) (k : Nat) : List Nat :=
  ((List.range k).filter (fun i => is_rise vlist i && (List.range i).any (is_fall vlist))).map
    (fun i => tlist.getD (i + 1) 0)

/-! ## Frame encoding, as the protocol table states it -/

/-- Bit `i` of the BCD encoding of `v`: bits 0..3 are the units digit, least
significant first, the bits from 4 on are the tens digit. -/
def bcd_bit (v i : Nat) : Nat :=
  if i < 4 then (v % 10) / 2 ^ i % 2 else (v / 10) / 2 ^ (i - 4) % 2

/-- Number of set bits among `bits off .. bits (off + len - 1)` (for 0/1 bits). -/
def ones (bits : Nat → Nat) (off len : Nat) : Nat :=
  ((List.range len).map (fun i => bits (off + i))).sum

/-- The frame `bits` carries the tuple: markers at 0 and 20, the six BCD fields
at their positions, and the three even-parity bits at 28, 35 and 58. Bits 1..19
are left free. -/
def IsFrameOf (bits : Nat → Nat) (mn hr day wd mon yr : Nat) : Prop :=
  bits 0 = 0 ∧ bits 20 = 1 ∧
  (∀ i, i < 7 → bits (21 + i) = bcd_bit mn i) ∧ bits 28 = ones bits 21 7 % 2 ∧
  (∀ i, i < 6 → bits (29 + i) = bcd_bit hr i) ∧ bits 35 = ones bits 29 6 % 2 ∧
  (∀ i, i < 6 → bits (36 + i) = bcd_bit day i) ∧
  (∀ i, i < 3 → bits (42 + i) = bcd_bit wd i) ∧
  (∀ i, i < 5 → bits (45 + i) = bcd_bit mon i) ∧
  (∀ i, i < 8 → bits (50 + i) = bcd_bit yr i) ∧
  bits 58 = ones bits 36 22 % 2

/-- A field of `len` BCD data bits of `v` followed by its even-parity bit. -/
def enc_field (v len : Nat) : Nat → Nat :=
  fun i => if i < len then bcd_bit v i else ones (bcd_bit v) 0 len % 2

/-- The 59-bit frame of a tuple with all ignored bits 0, as a list. -/
def encode_frame (mn hr day wd mon yr : Nat) : List Nat :=
  [0] ++ List.replicate 19 0 ++ [1]
    ++ (List.range 8).map (enc_field mn 7) ++ (List.range 7).map (enc_field hr 6)
    ++ (List.range 6).map (bcd_bit day) ++ (List.range 3).map (bcd_bit wd)
    ++ (List.range 5).map (bcd_bit mon) ++ (List.range 8).map (bcd_bit yr)
    ++ [(ones (bcd_bit day) 0 6 + ones (bcd_bit wd) 0 3 + ones (bcd_bit mon) 0 5
          + ones (bcd_bit yr) 0 8) % 2]

/-- The list `l` with bit `k` flipped. -/
def flip_bit (l : List Nat) (k : Nat) : List Nat := l.set k (1 - l.getD k 0)

/-- The frame of scenario S4: min=37, hr=14, day=5, weekday=3, mon=11, year=24. -/
def s4_frame : List Nat := encode_frame 37 14 5 3 11 24

/-- A frame whose only set bit is the marker at position 20. -/
def marker_only_frame : List Nat := List.replicate 20 0 ++ [1] ++ List.replicate 38 0

/-- A frame with bits 0..19 clear, the marker 20 and every data bit set, and the
even-parity bits 28 = 1 (seven minute bits), 35 = 0 (six hour bits), 58 = 0 (22 date
bits). -/
def all_ones_frame : List Nat :=
  List.replicate 20 0 ++ List.replicate 9 1 ++ List.replicate 6 1 ++ [0]
    ++ List.replicate 22 1 ++ [0]

/-- Seven minute data bits with only the first set, followed by parity bit 0. -/
def odd_field : List Nat := [1, 0, 0, 0, 0, 0, 0, 0]

/-- A sequence of edges `(timestamp, level)`: level 1 at 1000 µs, then one pulse (a
`1→0` edge and a `0→1` edge) per entry `(rise, dur)`: low from `rise - dur` to `rise`. -/
def edges_of (ps : List (Nat × Nat)) : List (Nat × Nat) :=
  (1000, 1) :: ps.flatMap (fun p => [(p.1 - p.2, 0), (p.1, 1)])

/-- The edges as a window `(tlist, vlist)`. -/
def window_of (ps : List (Nat × Nat)) : List Nat × List Nat :=
  ((edges_of ps).map Prod.fst, (edges_of ps).map Prod.snd)

/-- Scenario S3: 12 pulses of 100 ms whose rising edges are 1 s apart. -/
def s3_pulses : List (Nat × Nat) :=
  (List.range 12).map (fun k => (1000000 * (k + 1), 100000))

/-- Ten pulses with rising edges 1 s apart: seven of 100 ms (SHORT), then three of
300 ms (OTHER). -/
def tie_pulses : List (Nat × Nat) :=
  (List.range 10).map (fun k => (1000000 * (k + 1), if k < 7 then 100000 else 300000))

/-- Five pulses with rising edges 1 s apart: four of 100 ms (SHORT), then one of
300 ms (OTHER). -/
def fifth_pulses : List (Nat × Nat) :=
  (List.range 5).map (fun k => (1000000 * (k + 1), if k < 4 then 100000 else 300000))

/-- A pulse duration in neither band (OTHER). -/
def is_other (d : Nat) : Bool := !is_short d && !is_long d

/-- The branches of the classification loop body on the value `d = low_durs[i]`. -/
def classify_val (c : Int × Int) (d : Nat) : Int × Int :=
  if is_short d then (c.1 + 1, c.2) else if is_long d then (c.1, c.2 + 1) else c

/-- The S4 frame with the ignored bits 1..19 all set and the date parity bit 58
inverted. -/
def s4_frame_noisy : List Nat :=
  [0] ++ List.replicate 19 1 ++ (s4_frame.drop 20).take 38 ++ [1 - s4_frame.getD 58 0]

/-- Scenario S4 as pulses `(rise, dur)`: one SHORT pulse, then, 1.9 s later, the 59
pulses of the S4 frame, one per second, 100 ms for bit 0 and 200 ms for bit 1. -/
def s4_pulses : List (Nat × Nat) :=
  (1000000, 100000) ::
    (List.range 59).map
      (fun k => (2900000 + 1000000 * k, if s4_frame.getD k 0 = 0 then 100000 else 200000))

/-- Twelve pulses of 300 ms (OTHER) whose rising edges are 1 s apart. -/
def noise_pulses : List (Nat × Nat) :=
  (List.range 12).map (fun k => (1000000 * (k + 1), 300000))

/-- The counters of the extraction loop after `k` iterations are consistent:
`low_ts` and `low_durs` have `low_count` entries, `low_count ≤ rising_count`, and every
recorded rising edge took two iterations (one more if a low phase is open). -/
def CountInv (st : Extract) (k : Nat) : Prop :=
  st.low_ts.length = st.low_durs.length ∧ st.low_durs.length ≤ st.rising_times.length ∧
  2 * st.rising_times.length + (if st.low_active = true then 1 else 0) ≤ k

/-- The number of decimal digits of a number below 10000. -/
def digits_upto4 (x : Nat) : Nat :=
  if x < 10 then 1 else if x < 100 then 2 else if x < 1000 then 3 else 4

/-- Every recorded frame `(min, hr, day)` lies within the sums of its BCD weights. -/
def FramesBounded (frames : List (Int × Int × Int)) : Prop :=
  ∀ f, f ∈ frames → (0 ≤ f.1 ∧ f.1 ≤ 85) ∧ (0 ≤ f.2.1 ∧ f.2.1 ≤ 45) ∧ (0 ≤ f.2.2 ∧ f.2.2 ≤ 45)

/-- The two decimal digits of `x < 100`, tens first. -/
def two_digits (x : Nat) : String :=
  String.mk [Char.ofNat (48 + x / 10), Char.ofNat (48 + x % 10)]

/-- The extraction state pairs each recorded rising edge with a pulse: `rising_times[k]`
is `low_ts[k] + low_durs[k]`, a 32-bit value, and an open low phase started no later
than `ta`. -/
def EndsInv (st : Extract) (ta : Nat) : Prop :=
  st.low_ts.length = st.low_durs.length ∧
  st.rising_times = List.zipWith (fun s d => s + d) st.low_ts st.low_durs ∧
  (∀ x, x ∈ st.rising_times → x < 2 ^ 32) ∧
  (st.low_active = true → st.low_start ≤ ta)

/-- Start of pulse `i` of a pulse list `(start, duration)`. -/
def pulse_start (ps : List (Nat × Nat)) (i : Nat) : Nat := (ps.getD i (0, 0)).1

/-- Duration of pulse `i`. -/
def pulse_dur (ps : List (Nat × Nat)) (i : Nat) : Nat := (ps.getD i (0, 0)).2

/-- Rising edge that ends pulse `i`: its start plus its duration. -/
def pulse_end (ps : List (Nat × Nat)) (i : Nat) : Nat := pulse_start ps i + pulse_dur ps i

/-- The indices of `low_durs` read by the bit loop of main.cpp 216-226 started at
`start`: `start + j` for `j = 0, 1, ...`, up to and including the first `j` whose pulse
is neither SHORT nor LONG (where the loop breaks), and at most 59 of them. -/
def bit_reads (ld : List Nat) (start : Nat) : List Nat :=
  (((List.range 59).takeWhile
      (fun j => is_short (ld.getD (start + j) 0) || is_long (ld.getD (start + j) 0)))
    ++ (((List.range 59).dropWhile
      (fun j => is_short (ld.getD (start + j) 0) || is_long (ld.getD (start + j) 0))).take 1)).map
    (fun j => start + j)

/-- The indices of `low_durs` read in iteration `i` of the frame search (main.cpp
209-226): the bit loop runs only inside the three guards of `frame_step`. -/
def frame_reads (low_durs low_ts : List Nat) (low_count : Nat)
    (frames : List (Int × Int × Int)) (i : Nat) : List Nat :=
  if frames.length < 10 then
    if u32sub (low_ts.getD (i + 1) 0) (low_ts.getD i 0) ≥ TICK59_MIN_US then
      if i + 1 + 59 ≤ low_count then bit_reads low_durs (i + 1) else []
    else []
  else []

/-! ## Theorems -/

theorem foldl_range_congr {α : Type} (f g : α → Nat → α) (n : Nat)
    (h : ∀ a i, i < n → f a i = g a i) (a : α) :
    (List.range n).foldl f a = (List.range n).foldl g a := by
  induction n with
  | zero => rfl
  | succ k ih =>
    rw [List.range_succ, List.foldl_append, List.foldl_append]
    rw [ih (fun a i hi => h a i (Nat.lt_succ_of_lt hi))]
    simp only [List.foldl_cons, List.foldl_nil]
    exact h _ k (Nat.lt_succ_self k)

theorem decode_bcd_congr (arr arr2 : Nat → Nat) (w : List Int) (len : Nat) (p : Bool)
    (h : ∀ i, i ≤ len → arr i = arr2 i) :
    decode_bcd arr w len p = decode_bcd arr2 w len p := by
  unfold decode_bcd
  have hf : (List.range len).foldl (decode_bcd_step arr w) (0, 0)
      = (List.range len).foldl (decode_bcd_step arr2 w) (0, 0) := by
    apply foldl_range_congr
    intro a i hi
    simp only [decode_bcd_step, h i (Nat.le_of_lt hi)]
  rw [hf, h len (Nat.le_refl len)]

theorem sum_loop_congr (bits : Nat → Nat) (off : Nat) (f : Nat → Nat) (w : List Int)
    (len : Nat) (h : ∀ i, i < len → bits (off + i) = f i) :
    sum_loop bits off w len = sum_loop f 0 w len := by
  unfold sum_loop
  apply foldl_range_congr
  intro a i hi
  simp only [h i hi, Nat.zero_add]

theorem ones_congr (bits : Nat → Nat) (off : Nat) (f : Nat → Nat) (len : Nat)
    (h : ∀ i, i < len → bits (off + i) = f i) : ones bits off len = ones f 0 len := by
  unfold ones
  congr 1
  apply List.map_congr_left
  intro i hi
  simp only [Nat.zero_add]
  exact h i (List.mem_range.mp hi)

theorem decode_bcd_field (bits : Nat → Nat) (off v len : Nat) (w : List Int)
    (hd : ∀ i, i < len → bits (off + i) = bcd_bit v i)
    (hp : bits (off + len) = ones bits off len % 2) :
    decode_bcd (fun i => bits (off + i)) w len true = decode_bcd (enc_field v len) w len true := by
  apply decode_bcd_congr
  intro i hi
  rcases Nat.lt_or_ge i len with hlt | hge
  · simp only [enc_field, hlt, if_true]; exact hd i hlt
  · have : i = len := Nat.le_antisymm hi hge
    subst this
    simp only [enc_field, Nat.lt_irrefl, if_false]
    rw [hp, ones_congr bits off (bcd_bit v) i hd]

theorem roundtrip_min : ∀ m, m < 60 →
    decode_bcd (enc_field m 7) [1, 2, 4, 8, 10, 20, 40, 80] 7 true = (m : Int) := by decide

theorem roundtrip_hr : ∀ m, m < 24 →
    decode_bcd (enc_field m 6) [1, 2, 4, 8, 10, 20, 40] 6 true = (m : Int) := by decide

theorem roundtrip_day : ∀ m, m < 32 →
    sum_loop (bcd_bit m) 0 [1, 2, 4, 8, 10, 20] 6 = (m : Int) := by decide

theorem roundtrip_weekday : ∀ m, m < 8 →
    sum_loop (bcd_bit m) 0 [1, 2, 4] 3 = (m : Int) := by decide

theorem roundtrip_month : ∀ m, m < 13 →
    sum_loop (bcd_bit m) 0 [1, 2, 4, 8, 10] 5 = (m : Int) := by decide

theorem roundtrip_year : ∀ m, m < 100 →
    sum_loop (bcd_bit m) 0 [1, 2, 4, 8, 10, 20, 40, 80] 8 = (m : Int) := by decide

theorem decode_frame_of_isFrame (bits : Nat → Nat) (mn hr day wd mon yr : Nat)
    (hmn : mn < 60) (hhr : hr < 24) (hday : 1 ≤ day ∧ day ≤ 31) (hwd : 1 ≤ wd ∧ wd ≤ 7)
    (hmon : 1 ≤ mon ∧ mon ≤ 12) (hyr : yr < 100)
    (hf : IsFrameOf bits mn hr day wd mon yr) :
    decode_frame bits = some ((mn : Int), (hr : Int), (day : Int), (wd : Int), (mon : Int),
      (yr : Int)) := by
  obtain ⟨h0, h20, hm, hpm, hh, hph, hd, hw, hmo, hy, _⟩ := hf
  have e1 := decode_bcd_field bits 21 mn 7 [1, 2, 4, 8, 10, 20, 40, 80] hm hpm
  have e2 := decode_bcd_field bits 29 hr 6 [1, 2, 4, 8, 10, 20, 40] hh hph
  rw [roundtrip_min mn hmn] at e1
  rw [roundtrip_hr hr hhr] at e2
  have e3 := sum_loop_congr bits 36 (bcd_bit day) [1, 2, 4, 8, 10, 20] 6 hd
  have e4 := sum_loop_congr bits 42 (bcd_bit wd) [1, 2, 4] 3 hw
  have e5 := sum_loop_congr bits 45 (bcd_bit mon) [1, 2, 4, 8, 10] 5 hmo
  have e6 := sum_loop_congr bits 50 (bcd_bit yr) [1, 2, 4, 8, 10, 20, 40, 80] 8 hy
  rw [roundtrip_day day (by omega)] at e3
  rw [roundtrip_weekday wd (by omega)] at e4
  rw [roundtrip_month mon (by omega)] at e5
  rw [roundtrip_year yr hyr] at e6
  unfold decode_frame
  simp only [e1, e2, e3, e4, e5, e6, h0, h20]
  have n1 : ¬ ((mn : Int) < 0) := by omega
  have n2 : ¬ ((hr : Int) < 0) := by omega
  simp [n1, n2]

/-- C1: every frame that carries a tuple in range (markers, BCD fields and even
parities in place, bits 1..19 arbitrary) is accepted by `decode_frame`, and the six
outputs are the tuple. -/
theorem decode_frame_roundtrip (bits : Nat → Nat) (mn hr day wd mon yr : Nat)
    (hmn : mn < 60) (hhr : hr < 24) (hday : 1 ≤ day ∧ day ≤ 31) (hwd : 1 ≤ wd ∧ wd ≤ 7)
    (hmon : 1 ≤ mon ∧ mon ≤ 12) (hyr : yr < 100)
    (hf : IsFrameOf bits mn hr day wd mon yr) :
    decode_frame bits = some ((mn : Int), (hr : Int), (day : Int), (wd : Int), (mon : Int),
      (yr : Int)) :=
  decode_frame_of_isFrame bits mn hr day wd mon yr hmn hhr hday hwd hmon hyr hf

/-- C1 witness: the S4 frame decodes to (37, 14, 5, 3, 11, 24). -/
theorem decode_frame_roundtrip_witness :
    IsFrameOf (frame_of s4_frame) 37 14 5 3 11 24 ∧
    decode_frame (frame_of s4_frame)
      = some (((37 : Nat) : Int), ((14 : Nat) : Int), ((5 : Nat) : Int), ((3 : Nat) : Int),
          ((11 : Nat) : Int), ((24 : Nat) : Int)) :=
  ⟨by unfold IsFrameOf; decide,
   decode_frame_roundtrip (frame_of s4_frame) 37 14 5 3 11 24 (by decide) (by decide)
    (by decide) (by decide) (by decide) (by decide) (by unfold IsFrameOf; decide)⟩

/-- C2: on seven data bits with one bit set (`pc = 1`) and parity bit 0, so that
`pc + parity_bit` is odd, `decode_bcd` with parity enabled returns the weighted sum 1
and not -1. -/
theorem decode_bcd_odd_parity_accepted :
    ones (frame_of odd_field) 0 7 = 1 ∧ frame_of odd_field 7 = 0 ∧
    decode_bcd (frame_of odd_field) [1, 2, 4, 8, 10, 20, 40, 80] 7 true = 1 := by
  decide

/-- C3: the frame of (min=0, hr=0, day=1, weekday=1, mon=1, year=0) has correct
markers and parities; with its minute bit 21 flipped it is still accepted, as
minute 1. -/
theorem flipped_minute_bit_accepted :
    IsFrameOf (frame_of (encode_frame 0 0 1 1 1 0)) 0 0 1 1 1 0 ∧
    decode_frame (frame_of (flip_bit (encode_frame 0 0 1 1 1 0) 21))
      = some (1, 0, 1, 1, 1, 0) := by
  unfold IsFrameOf; decide

theorem bcd_fold_fst (arr : Nat → Nat) (w : List Int) (len : Nat) :
    ((List.range len).foldl (decode_bcd_step arr w) (0, 0)).1 = sum_loop arr 0 w len := by
  unfold sum_loop
  induction len with
  | zero => rfl
  | succ k ih =>
    rw [List.range_succ, List.foldl_append, List.foldl_append]
    simp only [List.foldl_cons, List.foldl_nil, Nat.zero_add] at ih ⊢
    rw [← ih]
    unfold decode_bcd_step
    split <;> rfl

theorem decode_bcd_cases (arr : Nat → Nat) (w : List Int) (len : Nat) (p : Bool) :
    decode_bcd arr w len p = -1 ∨ decode_bcd arr w len p = sum_loop arr 0 w len := by
  unfold decode_bcd
  simp only []
  split
  · exact Or.inl rfl
  · exact Or.inr (bcd_fold_fst arr w len)

theorem sum_loop_bounds (bits : Nat → Nat) (off : Nat) (w : List Int) (len : Nat)
    (hw : ∀ i, 0 ≤ w.getD i 0) :
    0 ≤ sum_loop bits off w len ∧
    sum_loop bits off w len ≤ ((List.range len).map (fun i => w.getD i 0)).sum := by
  unfold sum_loop
  induction len with
  | zero => simp
  | succ k ih =>
    rw [List.range_succ, List.foldl_append, List.map_append, List.sum_append]
    simp only [List.foldl_cons, List.foldl_nil, List.map_cons, List.map_nil, List.sum_cons,
      List.sum_nil, add_zero]
    have := hw k
    split <;> omega

theorem weights8_nonneg : ∀ i, (0 : Int) ≤ ([1, 2, 4, 8, 10, 20, 40, 80] : List Int).getD i 0
  | 0 | 1 | 2 | 3 | 4 | 5 | 6 | 7 => by decide
  | _ + 8 => by simp

theorem weights7_nonneg : ∀ i, (0 : Int) ≤ ([1, 2, 4, 8, 10, 20, 40] : List Int).getD i 0
  | 0 | 1 | 2 | 3 | 4 | 5 | 6 => by decide
  | _ + 7 => by simp

theorem weights6_nonneg : ∀ i, (0 : Int) ≤ ([1, 2, 4, 8, 10, 20] : List Int).getD i 0
  | 0 | 1 | 2 | 3 | 4 | 5 => by decide
  | _ + 6 => by simp

theorem weights5_nonneg : ∀ i, (0 : Int) ≤ ([1, 2, 4, 8, 10] : List Int).getD i 0
  | 0 | 1 | 2 | 3 | 4 => by decide
  | _ + 5 => by simp

theorem weights3_nonneg : ∀ i, (0 : Int) ≤ ([1, 2, 4] : List Int).getD i 0
  | 0 | 1 | 2 => by decide
  | _ + 3 => by simp

/-- C4 (as stated) fails: the frame with only the marker bit 20 set is accepted with
day, weekday and month 0, and the frame with every data bit set is accepted with
minute 85, hour 45, day 45, month 25 and year 165. -/
theorem decode_frame_out_of_range :
    (∀ i, i < 59 → frame_of marker_only_frame i ≤ 1) ∧
    decode_frame (frame_of marker_only_frame) = some (0, 0, 0, 0, 0, 0) ∧
    (∀ i, i < 59 → frame_of all_ones_frame i ≤ 1) ∧
    decode_frame (frame_of all_ones_frame) = some (85, 45, 45, 7, 25, 165) ∧
    ¬ ((1 : Int) ≤ 0) ∧ ¬ ((85 : Int) ≤ 59) := by
  and_intros
  all_goals decide

theorem decode_frame_bounds (bits : Nat → Nat) (mi hr d wd mo yr : Int)
    (h : decode_frame bits = some (mi, hr, d, wd, mo, yr)) :
    (0 ≤ mi ∧ mi ≤ 85) ∧ (0 ≤ hr ∧ hr ≤ 45) ∧ (0 ≤ d ∧ d ≤ 45) ∧ (0 ≤ wd ∧ wd ≤ 7) ∧
    (0 ≤ mo ∧ mo ≤ 25) ∧ (0 ≤ yr ∧ yr ≤ 165) := by
  unfold decode_frame at h
  simp only [] at h
  split at h
  · exact absurd h (by simp)
  split at h
  · exact absurd h (by simp)
  split at h
  · exact absurd h (by simp)
  rename_i hmark hmin hhr
  simp only [Option.some.injEq, Prod.mk.injEq] at h
  obtain ⟨rfl, rfl, rfl, rfl, rfl, rfl⟩ := h
  have b1 := sum_loop_bounds (fun i => bits (21 + i)) 0 [1, 2, 4, 8, 10, 20, 40, 80] 7
    weights8_nonneg
  have b2 := sum_loop_bounds (fun i => bits (29 + i)) 0 [1, 2, 4, 8, 10, 20, 40] 6
    weights7_nonneg
  have b3 := sum_loop_bounds bits 36 [1, 2, 4, 8, 10, 20] 6 weights6_nonneg
  have b4 := sum_loop_bounds bits 42 [1, 2, 4] 3 weights3_nonneg
  have b5 := sum_loop_bounds bits 45 [1, 2, 4, 8, 10] 5 weights5_nonneg
  have b6 := sum_loop_bounds bits 50 [1, 2, 4, 8, 10, 20, 40, 80] 8 weights8_nonneg
  have s1 : ((List.range 7).map (fun i => ([1, 2, 4, 8, 10, 20, 40, 80] : List Int).getD i 0)).sum
      = 85 := by decide
  have s2 : ((List.range 6).map (fun i => ([1, 2, 4, 8, 10, 20, 40] : List Int).getD i 0)).sum
      = 45 := by decide
  have s3 : ((List.range 6).map (fun i => ([1, 2, 4, 8, 10, 20] : List Int).getD i 0)).sum
      = 45 := by decide
  have s4 : ((List.range 3).map (fun i => ([1, 2, 4] : List Int).getD i 0)).sum = 7 := by decide
  have s5 : ((List.range 5).map (fun i => ([1, 2, 4, 8, 10] : List Int).getD i 0)).sum
      = 25 := by decide
  have s6 : ((List.range 8).map (fun i => ([1, 2, 4, 8, 10, 20, 40, 80] : List Int).getD i 0)).sum
      = 165 := by decide
  rw [s1] at b1; rw [s2] at b2; rw [s3] at b3; rw [s4] at b4; rw [s5] at b5; rw [s6] at b6
  have c1 := decode_bcd_cases (fun i => bits (21 + i)) [1, 2, 4, 8, 10, 20, 40, 80] 7 true
  have c2 := decode_bcd_cases (fun i => bits (29 + i)) [1, 2, 4, 8, 10, 20, 40] 6 true
  refine ⟨?_, ?_, b3, b4, b5, b6⟩
  · rcases c1 with c | c
    · omega
    · rw [c]; exact b1
  · rcases c2 with c | c
    · omega
    · rw [c]; exact b2

/-- C4 (amended): whenever `decode_frame` accepts, the outputs satisfy minute in 0..85,
hour in 0..45, day in 0..45, weekday in 0..7, month in 0..25 and year in 0..165 (the
sums of the BCD weights); no further range check is made. -/
theorem decode_frame_ranges (bits : Nat → Nat) (mi hr d wd mo yr : Int)
    (h : decode_frame bits = some (mi, hr, d, wd, mo, yr)) :
    (0 ≤ mi ∧ mi ≤ 85) ∧ (0 ≤ hr ∧ hr ≤ 45) ∧ (0 ≤ d ∧ d ≤ 45) ∧ (0 ≤ wd ∧ wd ≤ 7) ∧
    (0 ≤ mo ∧ mo ≤ 25) ∧ (0 ≤ yr ∧ yr ≤ 165) :=
  decode_frame_bounds bits mi hr d wd mo yr h

/-- C4 witness: the S4 frame is accepted and its outputs lie in the amended ranges. -/
theorem decode_frame_ranges_witness :
    decode_frame (frame_of s4_frame) = some (37, 14, 5, 3, 11, 24) ∧
    (((0 : Int) ≤ 37 ∧ (37 : Int) ≤ 85) ∧ ((0 : Int) ≤ 14 ∧ (14 : Int) ≤ 45) ∧
     ((0 : Int) ≤ 5 ∧ (5 : Int) ≤ 45) ∧ ((0 : Int) ≤ 3 ∧ (3 : Int) ≤ 7) ∧
     ((0 : Int) ≤ 11 ∧ (11 : Int) ≤ 25) ∧ ((0 : Int) ≤ 24 ∧ (24 : Int) ≤ 165)) :=
  ⟨by decide, decode_frame_ranges (frame_of s4_frame) 37 14 5 3 11 24 (by decide)⟩

/-! ### The edge ring -/

theorem ringInv_boot : RingInv boot [] := by
  refine ⟨rfl, rfl, ?_, rfl⟩
  intro i e h
  simp at h

theorem ringInv_step (p : Ring × List (Nat × Nat)) (e : Nat × Nat)
    (h : RingInv p.1 p.2) : RingInv (irq_trace_step p e).1 (irq_trace_step p e).2 := by
  obtain ⟨hh, hc, ha, hl⟩ := h
  unfold irq_trace_step irq_handler
  by_cases hd : debounced p.1 e.1 = true
  · simp only [hd, if_true]
    exact ⟨hh, hc, ha, hl⟩
  · simp only [hd, if_false, Bool.false_eq_true]
    refine ⟨?_, ?_, ?_, ?_⟩
    · simp only [List.length_append, List.length_singleton, hh, BUF_SZ]
      omega
    · simp only [List.length_append, List.length_singleton, hc, BUF_SZ]
      split <;> omega
    · intro i x hx hlen
      simp only [List.length_append, List.length_singleton] at hlen
      rcases Nat.lt_or_ge i p.2.length with hi | hi
      · rw [List.getElem?_append_left hi] at hx
        have hne : ¬ (i % BUF_SZ = p.1.head) := by
          rw [hh]; simp only [BUF_SZ] at hlen ⊢; omega
        simp only [hne, if_false]
        have hrec := ha i x hx
        simp only [BUF_SZ] at hlen hrec ⊢
        by_cases hfar : p.2.length ≤ i + 2048
        · exact hrec hfar
        · omega
      · rw [List.getElem?_append_right hi] at hx
        have hlt : i < (p.2 ++ [e]).length := by
          by_contra hcon
          have : ([e] : List (Nat × Nat))[i - p.2.length]? = none := by
            apply List.getElem?_eq_none
            simp only [List.length_append, List.length_singleton] at hcon
            simp only [List.length_singleton]
            omega
          rw [this] at hx
          exact absurd hx (by simp)
        simp only [List.length_append, List.length_singleton] at hlt
        have hi2 : i = p.2.length := by omega
        subst hi2
        simp only [Nat.sub_self, List.getElem?_cons_zero, Option.some.injEq] at hx
        subst hx
        simp [hh]
    · simp

theorem ringInv_foldl (evs : List (Nat × Nat)) (p : Ring × List (Nat × Nat))
    (h : RingInv p.1 p.2) :
    RingInv (evs.foldl irq_trace_step p).1 (evs.foldl irq_trace_step p).2 := by
  induction evs generalizing p with
  | nil => exact h
  | cons e es ih => exact ih (irq_trace_step p e) (ringInv_step p e h)

theorem ringInv_trace (evs : List (Nat × Nat)) :
    RingInv (irq_trace evs).1 (irq_trace evs).2 :=
  ringInv_foldl evs (boot, []) ringInv_boot

theorem irq_trace_fst_foldl (evs : List (Nat × Nat)) (p : Ring × List (Nat × Nat)) :
    (evs.foldl irq_trace_step p).1 = run_irq p.1 evs := by
  induction evs generalizing p with
  | nil => rfl
  | cons e es ih =>
    simp only [List.foldl_cons, run_irq]
    rw [ih]
    rfl

theorem irq_trace_fst (evs : List (Nat × Nat)) : (irq_trace evs).1 = run_irq boot evs :=
  irq_trace_fst_foldl evs (boot, [])

theorem snapshot_index (L i : Nat) :
    ((L % 2048 + 2048 - min L 2048) % 2048 + i) % 2048 = (L - min L 2048 + i) % 2048 := by
  omega

theorem snapshot_of_inv (s : Ring) (acc : List (Nat × Nat)) (h : RingInv s acc) :
    snapshot s = ((acc.drop (acc.length - min acc.length BUF_SZ)).map Prod.fst,
      (acc.drop (acc.length - min acc.length BUF_SZ)).map Prod.snd,
      min acc.length BUF_SZ) := by
  obtain ⟨hh, hc, ha, _⟩ := h
  have hcle : ¬ (min acc.length BUF_SZ > BUF_SZ) := by simp
  unfold snapshot
  simp only [hh, hc, if_neg hcle]
  have key : ∀ i (hi : i < min acc.length BUF_SZ),
      ∃ hlt : acc.length - min acc.length BUF_SZ + i < acc.length,
      s.times (((acc.length % BUF_SZ + BUF_SZ - min acc.length BUF_SZ) % BUF_SZ + i) % BUF_SZ)
        = (acc[acc.length - min acc.length BUF_SZ + i]).1 ∧
      s.vals (((acc.length % BUF_SZ + BUF_SZ - min acc.length BUF_SZ) % BUF_SZ + i) % BUF_SZ)
        = (acc[acc.length - min acc.length BUF_SZ + i]).2 := by
    intro i hi
    have hlt : acc.length - min acc.length BUF_SZ + i < acc.length := by omega
    refine ⟨hlt, ?_⟩
    have hidx := snapshot_index acc.length i
    have hrec := ha (acc.length - min acc.length BUF_SZ + i) _
      (List.getElem?_eq_getElem hlt) (by simp only [BUF_SZ] at hi ⊢; omega)
    simp only [BUF_SZ] at hrec hidx ⊢
    rw [hidx]
    exact hrec
  refine Prod.ext ?_ (Prod.ext ?_ rfl)
  · apply List.ext_getElem
    · simp only [List.length_map, List.length_range, List.length_drop]; omega
    · intro i h1 h2
      simp only [List.length_map, List.length_range] at h1
      obtain ⟨_, ht, _⟩ := key i h1
      simp only [List.getElem_map, List.getElem_range, List.getElem_drop]
      exact ht
  · apply List.ext_getElem
    · simp only [List.length_map, List.length_range, List.length_drop]; omega
    · intro i h1 h2
      simp only [List.length_map, List.length_range] at h1
      obtain ⟨_, _, hv⟩ := key i h1
      simp only [List.getElem_map, List.getElem_range, List.getElem_drop]
      exact hv

/-- C5: after any sequence of `irq_handler` calls from boot, of which the records
`acc` were accepted (`k = acc.length`), `snapshot` returns `c = min k 2048` and the
copied arrays are the timestamps and the levels of the last `c` accepted records, oldest
first; and `head < 2048`, `count ≤ 2048`. -/
theorem snapshot_last_accepted (evs : List (Nat × Nat)) :
    snapshot (run_irq boot evs)
      = (((irq_trace evs).2.drop
            ((irq_trace evs).2.length - min (irq_trace evs).2.length 2048)).map Prod.fst,
         ((irq_trace evs).2.drop
            ((irq_trace evs).2.length - min (irq_trace evs).2.length 2048)).map Prod.snd,
         min (irq_trace evs).2.length 2048) ∧
    (run_irq boot evs).head < 2048 ∧ (run_irq boot evs).count ≤ 2048 := by
  have hinv := ringInv_trace evs
  rw [irq_trace_fst] at hinv
  refine ⟨snapshot_of_inv _ _ hinv, ?_, ?_⟩
  · rw [hinv.1]; exact Nat.mod_lt _ (by decide)
  · rw [hinv.2.1]; exact Nat.min_le_right _ _

/-- C6: a previous edge exists with last accepted timestamp 0, and an edge at
timestamp 100 (32-bit difference 100 < 20000) is not dropped: it is stored, `head` and
`count` advance and `last_edge_us` becomes 100. This happens right after boot (first
edge at 0) and after the counter wraps (edges accepted at 5000, 4000000000 and 0). -/
theorem debounce_after_timestamp_zero :
    (irq_trace [(0, 1)]).2 = [(0, 1)] ∧ u32sub 100 0 < DEBOUNCE_US ∧
    (irq_trace [(0, 1)]).1.head = 1 ∧ (irq_trace [(0, 1)]).1.count = 1 ∧
    (irq_handler (irq_trace [(0, 1)]).1 100 0).head = 2 ∧
    (irq_handler (irq_trace [(0, 1)]).1 100 0).count = 2 ∧
    (irq_handler (irq_trace [(0, 1)]).1 100 0).last_edge_us = 100 ∧
    (irq_trace [(5000, 1), (4000000000, 0), (0, 1)]).2
      = [(5000, 1), (4000000000, 0), (0, 1)] ∧
    (irq_trace [(5000, 1), (4000000000, 0), (0, 1)]).1.count = 3 ∧
    (irq_handler (irq_trace [(5000, 1), (4000000000, 0), (0, 1)]).1 100 0).head = 4 ∧
    (irq_handler (irq_trace [(5000, 1), (4000000000, 0), (0, 1)]).1 100 0).count = 4 ∧
    (irq_handler (irq_trace [(5000, 1), (4000000000, 0), (0, 1)]).1 100 0).times 3 = 100 ∧
    (irq_handler (irq_trace [(5000, 1), (4000000000, 0), (0, 1)]).1 100 0).last_edge_us
      = 100 := by
  and_intros
  all_goals decide

/-- The debounce drop where the code performs it: in every ring state reached from boot
whose last accepted edge has a non-zero timestamp `last_edge`, a call of `irq_handler`
with `now - last_edge < DEBOUNCE_US` (32-bit difference) leaves the whole ring
unchanged. -/
theorem debounce_drops_edge (evs : List (Nat × Nat)) (e : Nat × Nat) (now level : Nat)
    (hlast : (irq_trace evs).2.getLast? = some e) (hnz : e.1 ≠ 0)
    (hclose : u32sub now e.1 < DEBOUNCE_US) :
    irq_handler (run_irq boot evs) now level = run_irq boot evs := by
  have hinv := ringInv_trace evs
  rw [irq_trace_fst] at hinv
  have hle : (run_irq boot evs).last_edge_us = e.1 := by
    rw [hinv.2.2.2, hlast]; rfl
  unfold irq_handler
  have hd : debounced (run_irq boot evs) now = true := by
    unfold debounced
    rw [hle]
    simp [hnz, hclose]
  rw [if_pos hd]

/-- After an edge accepted at 5 µs, an edge at 100 µs is dropped. -/
theorem debounce_drops_edge_witness :
    (irq_trace [(5, 1)]).2.getLast? = some (5, 1) ∧ (5, 1).1 ≠ 0 ∧
    u32sub 100 (5, 1).1 < DEBOUNCE_US ∧
    irq_handler (run_irq boot [(5, 1)]) 100 0 = run_irq boot [(5, 1)] :=
  ⟨by decide, by decide, by decide,
   debounce_drops_edge [(5, 1)] (5, 1) 100 0 (by decide) (by decide) (by decide)⟩

/-! ### Pulse extraction -/

theorem pair_step_rising (a b tb : Nat) (st : Extract) (B : Bool) (R : List Nat)
    (ha : a ≤ 1) (hb : b ≤ 1) (hact : st.low_active = true ↔ (a = 0 ∧ B = true))
    (hr : st.rising_times = R) :
    (pair_step a b tb st).rising_times
        = R ++ (if (decide (a = 0) && decide (b = 1) && B) = true then [tb] else []) ∧
    ((pair_step a b tb st).low_active = true
        ↔ (b = 0 ∧ (B || (decide (a = 1) && decide (b = 0))) = true)) := by
  have ha2 : a = 0 ∨ a = 1 := by omega
  have hb2 : b = 0 ∨ b = 1 := by omega
  rcases st with ⟨ld, lt, rt, ls, act⟩
  simp only at hact hr
  subst hr
  unfold pair_step
  rcases ha2 with rfl | rfl <;> rcases hb2 with rfl | rfl <;> cases act <;> cases B
  all_goals simp at hact ⊢
  all_goals split
  all_goals simp

theorem extract_rising_inv (tlist vlist : List Nat) (n : Nat)
    (hv : ∀ i, i < n → vlist.getD i 0 ≤ 1) (k : Nat) (hk : k + 1 ≤ n) :
    ((List.range k).foldl (extract_step tlist vlist) ⟨[], [], [], 0, false⟩).rising_times
        = rises_after_fall tlist vlist k ∧
    (((List.range k).foldl (extract_step tlist vlist) ⟨[], [], [], 0, false⟩).low_active = true
        ↔ (vlist.getD k 0 = 0 ∧ (List.range k).any (is_fall vlist) = true)) := by
  induction k with
  | zero => simp [rises_after_fall]
  | succ k ih =>
    obtain ⟨ihr, iha⟩ := ih (by omega)
    have hak := hv k (by omega)
    have hbk := hv (k + 1) (by omega)
    rw [List.range_succ, List.foldl_append]
    simp only [List.foldl_cons, List.foldl_nil]
    generalize (List.range k).foldl (extract_step tlist vlist) ⟨[], [], [], 0, false⟩ = st
      at ihr iha ⊢
    have hany : (List.range k ++ [k]).any (is_fall vlist)
        = ((List.range k).any (is_fall vlist) || is_fall vlist k) := by
      simp [List.any_append]
    have hspec : rises_after_fall tlist vlist (k + 1) = rises_after_fall tlist vlist k ++
        (if (is_rise vlist k && (List.range k).any (is_fall vlist)) = true
          then [tlist.getD (k + 1) 0] else []) := by
      unfold rises_after_fall
      rw [List.range_succ, List.filter_append, List.map_append]
      congr 1
      simp only [List.filter_cons, List.filter_nil]
      split <;> rfl
    rw [hspec, hany]
    exact pair_step_rising _ _ _ st _ _ hak hbk iha ihr

/-- C8 (as stated) fails: on the window with levels 0,1,0,1 the `0→1` pair at the
start is not recorded; `rising_times` is `[40]`, the `0→1` transitions are at 20 and 40. -/
theorem rising_times_misses_leading_rise :
    (extract [10, 20, 30, 40] [0, 1, 0, 1] 4).rising_times = [40] ∧
    all_rises [10, 20, 30, 40] [0, 1, 0, 1] 4 = [20, 40] := by
  and_intros
  all_goals decide

/-- C8 (amended): for every window of `n ≥ 4` edges with levels in {0,1},
`rising_times` is exactly the list, in order, of the timestamps `tlist[i+1]` of every
adjacent `0→1` pair that has an adjacent `1→0` pair somewhere before it in the
window. -/
theorem rising_times_eq (tlist vlist : List Nat) (n : Nat) (hn : 4 ≤ n)
    (hv : ∀ i, i < n → vlist.getD i 0 ≤ 1) :
    (extract tlist vlist n).rising_times = rises_after_fall tlist vlist (n - 1) :=
  (extract_rising_inv tlist vlist n hv (n - 1) (by omega)).1

/-- C8 witness: on levels 0,1,0,1 only the second `0→1` pair is recorded. -/
theorem rising_times_eq_witness :
    (extract [10, 20, 30, 40] [0, 1, 0, 1] 4).rising_times
      = rises_after_fall [10, 20, 30, 40] [0, 1, 0, 1] (4 - 1) ∧
    rises_after_fall [10, 20, 30, 40] [0, 1, 0, 1] (4 - 1) = [40] :=
  ⟨rising_times_eq [10, 20, 30, 40] [0, 1, 0, 1] 4 (by decide) (by decide), by decide⟩

theorem u32sub_eq (a b : Nat) (hb : b ≤ a) (ha : a < 2 ^ 32) : u32sub a b = a - b := by
  unfold u32sub
  omega

theorem pair_step_pulses (a b ta tb : Nat) (st : Extract)
    (ha : a ≤ 1) (hb : b ≤ 1) (hlt : ta < tb) (hbound : tb < 2 ^ 32)
    (hlen : st.low_ts.length = st.low_durs.length)
    (hact : st.low_active = true → a = 0 ∧ st.low_start ≤ ta) :
    (pair_step a b tb st).low_ts.length = (pair_step a b tb st).low_durs.length ∧
    ((pair_step a b tb st).low_active = true →
      b = 0 ∧ (pair_step a b tb st).low_start ≤ tb) ∧
    (pair_step a b tb st).low_ts.zip (pair_step a b tb st).low_durs
      = st.low_ts.zip st.low_durs ++
        (if (decide (a = 0) && decide (b = 1) && st.low_active) = true
          then [(st.low_start, tb - st.low_start)] else []) ∧
    (pair_step a b tb st).low_active
      = (if (decide (a = 1) && decide (b = 0)) = true then true
         else if (decide (a = 0) && decide (b = 1)) = true then false else st.low_active) ∧
    (pair_step a b tb st).low_start
      = (if (decide (a = 1) && decide (b = 0)) = true then tb else st.low_start) := by
  have ha2 : a = 0 ∨ a = 1 := by omega
  have hb2 : b = 0 ∨ b = 1 := by omega
  rcases st with ⟨ld, lt, rt, ls, act⟩
  simp only at hlen hact
  unfold pair_step
  rcases ha2 with rfl | rfl <;> rcases hb2 with rfl | rfl <;> cases act
  all_goals simp at hact ⊢
  all_goals try (first | exact hlen | omega)
  have hu : u32sub tb ls = tb - ls := u32sub_eq tb ls (by omega) hbound
  have hpos : 0 < tb - ls := by omega
  rw [hu]
  simp only [hpos, if_true]
  refine ⟨by simp [hlen], ?_, trivial⟩
  rw [List.zip_append hlen]
  rfl

theorem extract_pulses_suffix (tlist vlist : List Nat) (n : Nat)
    (hv : ∀ i, i < n → vlist.getD i 0 ≤ 1)
    (hinc : ∀ i, i + 1 < n → tlist.getD i 0 < tlist.getD (i + 1) 0)
    (hbound : ∀ i, i < n → tlist.getD i 0 < 2 ^ 32) (m : Nat) :
    ∀ (off : Nat) (st : Extract), off + m + 1 = n →
      st.low_ts.length = st.low_durs.length →
      (st.low_active = true → vlist.getD off 0 = 0 ∧ st.low_start ≤ tlist.getD off 0) →
      ((List.range' off m).foldl (extract_step tlist vlist) st).low_ts.zip
          ((List.range' off m).foldl (extract_step tlist vlist) st).low_durs
        = st.low_ts.zip st.low_durs ++
          (if st.low_active = true then
            (((List.range' off m).find? (is_rise vlist)).map
              (fun j => (st.low_start, tlist.getD (j + 1) 0 - st.low_start))).toList
           else []) ++
          (List.range' off m).filterMap (pulse_at tlist vlist n) := by
  induction m with
  | zero =>
    intro off st _ _ _
    simp
  | succ m ih =>
    intro off st hoff hlen hact
    have hstep := pair_step_pulses (vlist.getD off 0) (vlist.getD (off + 1) 0)
      (tlist.getD off 0) (tlist.getD (off + 1) 0) st (hv off (by omega))
      (hv (off + 1) (by omega)) (hinc off (by omega)) (hbound (off + 1) (by omega)) hlen hact
    obtain ⟨h1, h2, h3, h4, h5⟩ := hstep
    have hrec := ih (off + 1) (extract_step tlist vlist st off) (by omega) h1 h2
    rw [List.range'_succ, List.foldl_cons, hrec]
    have hfr : first_rise vlist n (off + 1) = (List.range' (off + 1) m).find? (is_rise vlist) := by
      unfold first_rise
      have : n - 1 - (off + 1) = m := by omega
      rw [this]
    simp only [List.filterMap_cons, List.find?_cons, pulse_at, hfr]
    unfold extract_step
    rw [h3, h4, h5]
    have hr : is_rise vlist off
        = (decide (vlist.getD off 0 = 0) && decide (vlist.getD (off + 1) 0 = 1)) := rfl
    have hf : is_fall vlist off
        = (decide (vlist.getD off 0 = 1) && decide (vlist.getD (off + 1) 0 = 0)) := rfl
    rw [hr, hf]
    have ha := hv off (by omega)
    have hb := hv (off + 1) (by omega)
    generalize (List.range' (off + 1) m).find? (is_rise vlist) = F
    generalize List.filterMap (pulse_at tlist vlist n) (List.range' (off + 1) m) = rest
    generalize vlist.getD (off + 1) 0 = b at hb
    generalize vlist.getD off 0 = a at ha hact
    have ha2 : a = 0 ∨ a = 1 := by omega
    have hb2 : b = 0 ∨ b = 1 := by omega
    rcases ha2 with rfl | rfl <;> rcases hb2 with rfl | rfl <;> cases hA : st.low_active
    all_goals simp [hA] at hact ⊢
    all_goals cases F
    all_goals simp

/-- C7: for every window of `n ≥ 4` edges with levels in {0,1} and strictly
increasing 32-bit timestamps, the extracted pulses `(low_ts[k], low_durs[k])` are, in
order, one pulse per adjacent `1→0` pair that has a later adjacent `0→1` pair, starting
at the 0-edge and lasting up to the 1-edge of the first such later pair. -/
theorem extract_pulses_eq (tlist vlist : List Nat) (n : Nat) (hn : 4 ≤ n)
    (hv : ∀ i, i < n → vlist.getD i 0 ≤ 1)
    (hinc : ∀ i, i + 1 < n → tlist.getD i 0 < tlist.getD (i + 1) 0)
    (hbound : ∀ i, i < n → tlist.getD i 0 < 2 ^ 32) :
    (extract tlist vlist n).low_ts.zip (extract tlist vlist n).low_durs
      = scan_pulses tlist vlist n := by
  have h := extract_pulses_suffix tlist vlist n hv hinc hbound (n - 1) 0
    ⟨[], [], [], 0, false⟩ (by omega) rfl (by simp)
  unfold extract scan_pulses
  rw [List.range_eq_range', h]
  simp

/-- C7 witness: levels 1,0,0,1,0 at times 10..50 give the single pulse (20, 20); the
`0→0` pair does not end it and the trailing `1→0` pair emits nothing. -/
theorem extract_pulses_eq_witness :
    (extract [10, 20, 30, 40, 50] [1, 0, 0, 1, 0] 5).low_ts.zip
        (extract [10, 20, 30, 40, 50] [1, 0, 0, 1, 0] 5).low_durs
      = scan_pulses [10, 20, 30, 40, 50] [1, 0, 0, 1, 0] 5 ∧
    scan_pulses [10, 20, 30, 40, 50] [1, 0, 0, 1, 0] 5 = [(20, 20)] :=
  ⟨extract_pulses_eq [10, 20, 30, 40, 50] [1, 0, 0, 1, 0] 5 (by decide) (by decide)
    (fun i hi => by
      have h4 : i < 4 := by omega
      interval_cases i <;> decide)
    (by decide), by decide⟩

/-! ### The quality score -/

theorem add_sec_bounds (q s : Int) : q ≤ add_sec q s ∧ add_sec q s ≤ q + 40 := by
  unfold add_sec
  split_ifs <;> omega

theorem add_tick_bounds (q s : Int) : q ≤ add_tick q s ∧ add_tick q s ≤ q + 20 := by
  unfold add_tick
  split_ifs <;> omega

theorem add_shortlong_bounds (q : Int) (r : Int × Nat) :
    q ≤ add_shortlong q r ∧ add_shortlong q r ≤ q + 20 := by
  unfold add_shortlong
  split_ifs <;> omega

theorem add_other_bounds (q : Int) (r : Int × Nat) :
    q ≤ add_other q r ∧ add_other q r ≤ q + 10 := by
  unfold add_other
  split_ifs <;> omega

theorem add_frame_bounds (q : Int) (fc : Nat) :
    q ≤ add_frame q fc ∧ add_frame q fc ≤ q + 10 := by
  unfold add_frame
  split_ifs <;> omega

theorem score_of_bounds (sec_like tick59_like : Int) (r1 r2 : Int × Nat) (fc : Nat) :
    0 ≤ score_of sec_like tick59_like r1 r2 fc ∧
    score_of sec_like tick59_like r1 r2 fc ≤ 100 := by
  unfold score_of
  have h1 := add_sec_bounds 0 sec_like
  have h2 := add_tick_bounds (add_sec 0 sec_like) tick59_like
  have h3 := add_shortlong_bounds (add_tick (add_sec 0 sec_like) tick59_like) r1
  have h4 := add_other_bounds
    (add_shortlong (add_tick (add_sec 0 sec_like) tick59_like) r1) r2
  have h5 := add_frame_bounds
    (add_other (add_shortlong (add_tick (add_sec 0 sec_like) tick59_like) r1) r2) fc
  omega

theorem status_of_score (d : Diag) : (status_of d).quality_score = d.score := by
  unfold status_of
  simp only []
  split
  · rfl
  · split_ifs <;> rfl

/-- C9: for every snapshot (any arrays, any `n`) and for every ring,
`analyze_and_diagnose` leaves `0 ≤ quality_score ≤ 100`. -/
theorem quality_score_range :
    (∀ (tlist vlist : List Nat) (n : Nat),
      0 ≤ (analyze tlist vlist n).quality_score ∧ (analyze tlist vlist n).quality_score ≤ 100) ∧
    (∀ s : Ring,
      0 ≤ (analyze_and_diagnose s).quality_score ∧ (analyze_and_diagnose s).quality_score ≤ 100) := by
  have key : ∀ (tlist vlist : List Nat) (n : Nat),
      0 ≤ (analyze tlist vlist n).quality_score ∧ (analyze tlist vlist n).quality_score ≤ 100 := by
    intro tlist vlist n
    unfold analyze
    split
    · simp
    · simp only []
      split
      · simp
      · rw [status_of_score]
        exact score_of_bounds _ _ _ _ _
  exact ⟨key, fun s => key _ _ _⟩

set_option maxRecDepth 20000 in
/-- C10: the ring filled with ten pulses of which exactly seven are SHORT (nine
one-second rising gaps, no long gap, three OTHER, no frame) scores
20 + 0 + 10 + 5 + 0 = 35: the ratio 7/10 rounded to single precision is below the
double 0.7, so the tie takes the lower tier. With five pulses of which exactly one is
OTHER the ratio 1/5 rounded to single precision is above the double 0.2 and the score
is 10 + 0 + 20 + 5 + 0 = 35. Scenario S3 scores 70. -/
theorem score_at_ratio_ties :
    snapshot (run_irq boot (edges_of tie_pulses))
      = ((window_of tie_pulses).1, (window_of tie_pulses).2, 21) ∧
    (diagnose (extract (window_of tie_pulses).1 (window_of tie_pulses).2 21)).pulse_count = 10 ∧
    (diagnose (extract (window_of tie_pulses).1 (window_of tie_pulses).2 21)).short_count = 7 ∧
    (diagnose (extract (window_of tie_pulses).1 (window_of tie_pulses).2 21)).long_count = 0 ∧
    (diagnose (extract (window_of tie_pulses).1 (window_of tie_pulses).2 21)).other = 3 ∧
    (diagnose (extract (window_of tie_pulses).1 (window_of tie_pulses).2 21)).sec_like = 9 ∧
    (diagnose (extract (window_of tie_pulses).1 (window_of tie_pulses).2 21)).tick59_like = 0 ∧
    (diagnose (extract (window_of tie_pulses).1 (window_of tie_pulses).2 21)).frames = [] ∧
    (analyze_and_diagnose (run_irq boot (edges_of tie_pulses))).quality_score = 35 ∧
    (diagnose (extract (window_of fifth_pulses).1 (window_of fifth_pulses).2 11)).pulse_count = 5 ∧
    (diagnose (extract (window_of fifth_pulses).1 (window_of fifth_pulses).2 11)).other = 1 ∧
    (diagnose (extract (window_of fifth_pulses).1 (window_of fifth_pulses).2 11)).sec_like = 4 ∧
    (diagnose (extract (window_of fifth_pulses).1 (window_of fifth_pulses).2 11)).tick59_like = 0 ∧
    (diagnose (extract (window_of fifth_pulses).1 (window_of fifth_pulses).2 11)).frames = [] ∧
    (analyze_and_diagnose (run_irq boot (edges_of fifth_pulses))).quality_score = 35 ∧
    (analyze_and_diagnose (run_irq boot (edges_of s3_pulses))).quality_score = 70 := by
  and_intros
  all_goals decide

/-! ### Pulse classification -/

theorem foldl_range_getD {α : Type} (f : α → Nat → α) (l : List Nat) (a : α) :
    (List.range l.length).foldl (fun acc i => f acc (l.getD i 0)) a = l.foldl f a := by
  induction l using List.reverseRecOn with
  | nil => rfl
  | append_singleton l x ih =>
    rw [List.length_append, List.length_singleton, List.range_succ, List.foldl_append,
      List.foldl_append]
    have hc : (List.range l.length).foldl (fun acc i => f acc ((l ++ [x]).getD i 0)) a
        = (List.range l.length).foldl (fun acc i => f acc (l.getD i 0)) a := by
      apply foldl_range_congr
      intro acc i hi
      rw [List.getD_append l [x] 0 i hi]
    rw [hc, ih]
    simp only [List.foldl_cons, List.foldl_nil]
    rw [List.getD_append_right l [x] 0 l.length (Nat.le_refl _)]
    simp

theorem short_not_long (d : Nat) (h : is_short d = true) : is_long d = false := by
  unfold is_short at h
  unfold is_long
  simp only [FALSE_MIN_US, FALSE_MAX_US, TRUE_MIN_US, TRUE_MAX_US, Bool.and_eq_true,
    decide_eq_true_eq, Bool.and_eq_false_iff, decide_eq_false_iff_not] at h ⊢
  omega

theorem foldl_classify_val (l : List Nat) (c : Int × Int) :
    l.foldl classify_val c
      = (c.1 + (l.countP is_short : Nat), c.2 + (l.countP is_long : Nat)) := by
  induction l generalizing c with
  | nil => simp
  | cons d t ih =>
    rw [List.foldl_cons, ih]
    unfold classify_val
    by_cases hs : is_short d = true
    · have hl := short_not_long d hs
      simp [hs, hl, List.countP_cons]
      omega
    · by_cases hl : is_long d = true
      · simp [hs, hl, List.countP_cons]
        omega
      · simp [hs, hl, List.countP_cons]

theorem classify_fold (ld : List Nat) :
    (List.range ld.length).foldl (classify_step ld) (0, 0)
      = (((ld.countP is_short : Nat) : Int), ((ld.countP is_long : Nat) : Int)) := by
  have h := foldl_range_getD classify_val ld (0, 0)
  have e : (fun (acc : Int × Int) i => classify_val acc (ld.getD i 0)) = classify_step ld := rfl
  rw [e] at h
  rw [h, foldl_classify_val]
  simp

theorem count_partition (l : List Nat) :
    l.countP is_short + l.countP is_long + l.countP is_other = l.length := by
  induction l with
  | nil => rfl
  | cons d t ih =>
    simp only [List.countP_cons, List.length_cons, is_other]
    by_cases hs : is_short d = true
    · have hl := short_not_long d hs
      simp [hs, hl]
      omega
    · by_cases hl : is_long d = true
      · simp [hs, hl]
        omega
      · simp [hs, hl]
        omega

/-- C17: for every pulse list, `short_count` is the number of pulses with duration in
[60000,140000], `long_count` the number with duration in [160000,260000], and
`other = pulse_count - short_count - long_count` the number of pulses in neither band;
all three are non-negative and they add up to `pulse_count`. -/
theorem classification_counts (ex : Extract) :
    (diagnose ex).pulse_count = ex.low_durs.length ∧
    (diagnose ex).short_count = (ex.low_durs.countP is_short : Nat) ∧
    (diagnose ex).long_count = (ex.low_durs.countP is_long : Nat) ∧
    (diagnose ex).other = (ex.low_durs.countP is_other : Nat) ∧
    0 ≤ (diagnose ex).short_count ∧ 0 ≤ (diagnose ex).long_count ∧ 0 ≤ (diagnose ex).other ∧
    (diagnose ex).short_count + (diagnose ex).long_count + (diagnose ex).other
      = ((diagnose ex).pulse_count : Int) := by
  have hp := count_partition ex.low_durs
  simp only [diagnose, classify_fold]
  refine ⟨trivial, trivial, trivial, ?_, ?_, ?_, ?_, ?_⟩ <;> omega

/-! ### Bits that `decode_frame` does not read -/

theorem sum_loop_congr2 (b1 b2 : Nat → Nat) (off : Nat) (w : List Int) (len : Nat)
    (h : ∀ i, i < len → b1 (off + i) = b2 (off + i)) :
    sum_loop b1 off w len = sum_loop b2 off w len := by
  rw [sum_loop_congr b1 off (fun i => b2 (off + i)) w len h,
    sum_loop_congr b2 off (fun i => b2 (off + i)) w len (fun _ _ => rfl)]

/-- C18: two bit sequences that agree on bit 0 and on bits 20..57 get the same result
from `decode_frame`: the same accept/reject answer and, when accepted, the same six
fields. Bits 1..19 and the date parity bit 58 are never read. -/
theorem decode_frame_ignored_bits (b1 b2 : Nat → Nat) (h0 : b1 0 = b2 0)
    (h : ∀ i, 20 ≤ i → i ≤ 57 → b1 i = b2 i) : decode_frame b1 = decode_frame b2 := by
  have e1 : decode_bcd (fun i => b1 (21 + i)) [1, 2, 4, 8, 10, 20, 40, 80] 7 true
      = decode_bcd (fun i => b2 (21 + i)) [1, 2, 4, 8, 10, 20, 40, 80] 7 true :=
    decode_bcd_congr _ _ _ _ _ (fun i hi => h (21 + i) (by omega) (by omega))
  have e2 : decode_bcd (fun i => b1 (29 + i)) [1, 2, 4, 8, 10, 20, 40] 6 true
      = decode_bcd (fun i => b2 (29 + i)) [1, 2, 4, 8, 10, 20, 40] 6 true :=
    decode_bcd_congr _ _ _ _ _ (fun i hi => h (29 + i) (by omega) (by omega))
  have e3 := sum_loop_congr2 b1 b2 36 [1, 2, 4, 8, 10, 20] 6
    (fun i hi => h (36 + i) (by omega) (by omega))
  have e4 := sum_loop_congr2 b1 b2 42 [1, 2, 4] 3
    (fun i hi => h (42 + i) (by omega) (by omega))
  have e5 := sum_loop_congr2 b1 b2 45 [1, 2, 4, 8, 10] 5
    (fun i hi => h (45 + i) (by omega) (by omega))
  have e6 := sum_loop_congr2 b1 b2 50 [1, 2, 4, 8, 10, 20, 40, 80] 8
    (fun i hi => h (50 + i) (by omega) (by omega))
  unfold decode_frame
  rw [h0, h 20 (by omega) (by omega), e1, e2, e3, e4, e5, e6]

/-- C18 witness: the S4 frame and the same frame with bits 1..19 set and bit 58
inverted decode alike, to (37, 14, 5, 3, 11, 24). -/
theorem decode_frame_ignored_bits_witness :
    frame_of s4_frame 1 ≠ frame_of s4_frame_noisy 1 ∧
    frame_of s4_frame 58 ≠ frame_of s4_frame_noisy 58 ∧
    decode_frame (frame_of s4_frame_noisy) = some (37, 14, 5, 3, 11, 24) ∧
    decode_frame (frame_of s4_frame) = decode_frame (frame_of s4_frame_noisy) :=
  ⟨by decide, by decide, by decide,
   decode_frame_ignored_bits (frame_of s4_frame) (frame_of s4_frame_noisy) (by decide)
    (fun i h1 h2 => by interval_cases i <;> decide)⟩

/-! ### Status lines -/

theorem snprintf32_short (s : String) (h : s.length ≤ 31) : snprintf32 s = s := by
  unfold snprintf32
  rw [List.take_of_length_le (by rw [String.length_data]; exact h)]

/-- C13 (as stated) fails: the S2 ring, holding the single record of a `1→0` edge, gives
a window of one edge with no pulse, and the status is ("0", "NO SIG", ""), not
"NO PULSE". -/
theorem single_edge_is_no_sig :
    snapshot (run_irq boot [(5000, 0)]) = ([5000], [0], 1) ∧
    (extract [5000] [0] 1).low_durs = [] ∧
    (analyze_and_diagnose (run_irq boot [(5000, 0)])).quality_score = 0 ∧
    (analyze_and_diagnose (run_irq boot [(5000, 0)])).line1 = "0" ∧
    (analyze_and_diagnose (run_irq boot [(5000, 0)])).line2 = "NO SIG" ∧
    (analyze_and_diagnose (run_irq boot [(5000, 0)])).line3 = "" := by
  and_intros
  all_goals decide

/-- C13 (amended): for every window of at least 4 edges from which no pulse is
extracted, `analyze_and_diagnose` sets `quality_score = 0` and the status lines to
("0", "NO PULSE", ""). -/
theorem no_pulse_status (tlist vlist : List Nat) (n : Nat) (hn : 4 ≤ n)
    (h0 : (extract tlist vlist n).low_durs.length = 0) :
    (analyze tlist vlist n).quality_score = 0 ∧ (analyze tlist vlist n).line1 = "0" ∧
    (analyze tlist vlist n).line2 = "NO PULSE" ∧ (analyze tlist vlist n).line3 = "" := by
  unfold analyze
  rw [if_neg (by omega)]
  simp only [h0, if_true]
  and_intros
  all_goals decide

/-- C13 witness: four edges with levels 1,0,0,0 hold no pulse. -/
theorem no_pulse_status_witness :
    (extract [1000, 101000, 201000, 301000] [1, 0, 0, 0] 4).low_durs.length = 0 ∧
    ((analyze [1000, 101000, 201000, 301000] [1, 0, 0, 0] 4).quality_score = 0 ∧
     (analyze [1000, 101000, 201000, 301000] [1, 0, 0, 0] 4).line1 = "0" ∧
     (analyze [1000, 101000, 201000, 301000] [1, 0, 0, 0] 4).line2 = "NO PULSE" ∧
     (analyze [1000, 101000, 201000, 301000] [1, 0, 0, 0] 4).line3 = "") :=
  ⟨by decide,
   no_pulse_status [1000, 101000, 201000, 301000] [1, 0, 0, 0] 4 (by decide) (by decide)⟩

set_option maxRecDepth 100000 in
/-- C14: the ring filled with scenario S4 decodes the frame (37, 14, 5, 3, 11, 24),
month 11, and the status is ("100", "14:37", "05/00"): line3 shows the day and the
literal 0 in place of the month. -/
theorem date_line_shows_month_zero :
    decode_frame (frame_of s4_frame) = some (37, 14, 5, 3, 11, 24) ∧
    (diagnose (extract (window_of s4_pulses).1 (window_of s4_pulses).2 121)).frames
      = [(37, 14, 5)] ∧
    (analyze_and_diagnose (run_irq boot (edges_of s4_pulses))).quality_score = 100 ∧
    (analyze_and_diagnose (run_irq boot (edges_of s4_pulses))).line1 = "100" ∧
    (analyze_and_diagnose (run_irq boot (edges_of s4_pulses))).line2 = "14:37" ∧
    (analyze_and_diagnose (run_irq boot (edges_of s4_pulses))).line3 = "05/00" := by
  and_intros
  all_goals decide

/-! ### Order of the snapshot -/

theorem irq_trace_sublist_foldl (evs : List (Nat × Nat)) (p : Ring × List (Nat × Nat)) :
    ∃ l, l.Sublist evs ∧ (evs.foldl irq_trace_step p).2 = p.2 ++ l := by
  induction evs generalizing p with
  | nil => exact ⟨[], List.Sublist.slnil, by simp⟩
  | cons e es ih =>
    obtain ⟨l, hl, he⟩ := ih (irq_trace_step p e)
    rw [List.foldl_cons, he]
    unfold irq_trace_step
    by_cases hd : debounced p.1 e.1 = true
    · exact ⟨l, List.Sublist.cons e hl, by simp [hd]⟩
    · exact ⟨e :: l, List.Sublist.cons₂ e hl, by simp [hd]⟩

theorem irq_trace_sublist (evs : List (Nat × Nat)) : (irq_trace evs).2.Sublist evs := by
  obtain ⟨l, hl, he⟩ := irq_trace_sublist_foldl evs (boot, [])
  unfold irq_trace
  rw [he]
  simpa using hl

/-- C16: for every ring reached from boot by `irq_handler` calls whose timestamps are
non-decreasing, `snapshot` returns `c ≤ 2048`, copies exactly `c` timestamps, and the
copied timestamps are non-decreasing. -/
theorem snapshot_sorted (evs : List (Nat × Nat))
    (hmono : (evs.map Prod.fst).Chain' (fun a b => a ≤ b)) :
    (snapshot (run_irq boot evs)).2.2 ≤ BUF_SZ ∧
    (snapshot (run_irq boot evs)).1.length = (snapshot (run_irq boot evs)).2.2 ∧
    (snapshot (run_irq boot evs)).1.Pairwise (fun a b => a ≤ b) := by
  have hinv := ringInv_trace evs
  rw [irq_trace_fst] at hinv
  rw [snapshot_of_inv _ _ hinv]
  have hp : (evs.map Prod.fst).Pairwise (fun a b => a ≤ b) :=
    List.chain'_iff_pairwise.mp hmono
  have hsub : ((List.drop ((irq_trace evs).2.length - min (irq_trace evs).2.length BUF_SZ)
      (irq_trace evs).2).map Prod.fst).Sublist (evs.map Prod.fst) :=
    (List.Sublist.trans (List.drop_sublist _ _) (irq_trace_sublist evs)).map Prod.fst
  refine ⟨Nat.min_le_right _ _, ?_, hp.sublist hsub⟩
  simp only [List.length_map, List.length_drop]
  omega

/-- C16 witness: three edges at 5000, 30000, 60000 µs. -/
theorem snapshot_sorted_witness :
    (snapshot (run_irq boot [(5000, 0), (30000, 1), (60000, 0)])).1 = [5000, 30000, 60000] ∧
    ((snapshot (run_irq boot [(5000, 0), (30000, 1), (60000, 0)])).2.2 ≤ BUF_SZ ∧
     (snapshot (run_irq boot [(5000, 0), (30000, 1), (60000, 0)])).1.length
       = (snapshot (run_irq boot [(5000, 0), (30000, 1), (60000, 0)])).2.2 ∧
     (snapshot (run_irq boot [(5000, 0), (30000, 1), (60000, 0)])).1.Pairwise
       (fun a b => a ≤ b)) :=
  ⟨by decide, snapshot_sorted [(5000, 0), (30000, 1), (60000, 0)] (by simp)⟩

/-! ### Bounds of the extraction loop and of the frame search -/

theorem pair_step_counts (a b tb : Nat) (st : Extract) (k : Nat) (h : CountInv st k) :
    CountInv (pair_step a b tb st) (k + 1) := by
  obtain ⟨h1, h2, h3⟩ := h
  rcases st with ⟨ld, lt, rt, ls, act⟩
  simp only at h1 h2 h3
  unfold pair_step CountInv
  by_cases hf : a = 1 ∧ b = 0
  · simp only [hf, and_self, if_true]
    refine ⟨h1, h2, ?_⟩
    split at h3 <;> omega
  · by_cases hr : a = 0 ∧ b = 1 ∧ act = true
    · obtain ⟨ha, hb, hact⟩ := hr
      subst hact
      simp only [hf, if_false, ha, hb, and_self, if_true] at h3 ⊢
      by_cases hd : u32sub tb ls > 0
      · simp only [hd, if_true, List.length_append, List.length_singleton]
        simp
        omega
      · simp only [hd, if_false, List.length_append, List.length_singleton]
        simp
        omega
    · simp only [hf, hr, if_false]
      refine ⟨h1, h2, ?_⟩
      omega

theorem extract_counts (tlist vlist : List Nat) (k : Nat) :
    CountInv ((List.range k).foldl (extract_step tlist vlist) ⟨[], [], [], 0, false⟩) k := by
  induction k with
  | zero => simp [CountInv]
  | succ k ih =>
    rw [List.range_succ, List.foldl_append]
    exact pair_step_counts _ _ _ _ k ih

theorem extract_low_count_le (tlist vlist : List Nat) (n : Nat) :
    2 * (extract tlist vlist n).low_durs.length ≤ n - 1 := by
  obtain ⟨_, h2, h3⟩ := extract_counts tlist vlist (n - 1)
  unfold extract
  split at h3 <;> omega

/-- C19: for every window of `n ≥ 4` edges (whatever the levels), after each number
`k ≤ n - 1` of iterations of the extraction loop `low_count ≤ rising_count ≤ (n-1)/2`,
so the indices `low_count` and `rising_count` of the next writes are below `n`; and for
`n ≤ 2048` the pulse count is at most 1023. -/
theorem extract_in_bounds (tlist vlist : List Nat) (n : Nat) (hn : 4 ≤ n) (k : Nat)
    (hk : k ≤ n - 1) :
    ((List.range k).foldl (extract_step tlist vlist) ⟨[], [], [], 0, false⟩).low_durs.length
      ≤ ((List.range k).foldl (extract_step tlist vlist)
          ⟨[], [], [], 0, false⟩).rising_times.length ∧
    ((List.range k).foldl (extract_step tlist vlist) ⟨[], [], [], 0, false⟩).rising_times.length
      ≤ (n - 1) / 2 ∧
    ((List.range k).foldl (extract_step tlist vlist) ⟨[], [], [], 0, false⟩).low_ts.length
      = ((List.range k).foldl (extract_step tlist vlist) ⟨[], [], [], 0, false⟩).low_durs.length ∧
    ((List.range k).foldl (extract_step tlist vlist) ⟨[], [], [], 0, false⟩).low_durs.length < n ∧
    ((List.range k).foldl (extract_step tlist vlist) ⟨[], [], [], 0, false⟩).rising_times.length
      < n ∧
    (n ≤ 2048 → (extract tlist vlist n).low_durs.length ≤ 1023) := by
  obtain ⟨h1, h2, h3⟩ := extract_counts tlist vlist k
  have hfin := extract_low_count_le tlist vlist n
  generalize (List.range k).foldl (extract_step tlist vlist) ⟨[], [], [], 0, false⟩ = st
    at h1 h2 h3 ⊢
  have h4 : 2 * st.rising_times.length ≤ k := by
    split at h3 <;> omega
  refine ⟨h2, ?_, h1, ?_, ?_, ?_⟩ <;> omega

/-- C19 witness: the window with levels 1,0,1,0,1 at times 10..50 holds two pulses. -/
theorem extract_in_bounds_witness :
    (extract [10, 20, 30, 40, 50] [1, 0, 1, 0, 1] 5).low_durs = [10, 10] ∧
    (extract [10, 20, 30, 40, 50] [1, 0, 1, 0, 1] 5).rising_times.length ≤ (5 - 1) / 2 ∧
    (5 ≤ 2048 → (extract [10, 20, 30, 40, 50] [1, 0, 1, 0, 1] 5).low_durs.length ≤ 1023) :=
  ⟨by decide,
   (extract_in_bounds [10, 20, 30, 40, 50] [1, 0, 1, 0, 1] 5 (by decide) 4 (by decide)).2.1,
   (extract_in_bounds [10, 20, 30, 40, 50] [1, 0, 1, 0, 1] 5 (by decide) 4
      (by decide)).2.2.2.2.2⟩

theorem foldl_noop {α β : Type} (f : α → β → α) (l : List β) (a : α)
    (h : ∀ x, x ∈ l → f a x = a) : l.foldl f a = a := by
  induction l with
  | nil => rfl
  | cons x t ih =>
    rw [List.foldl_cons, h x (List.mem_cons_self x t)]
    exact ih (fun y hy => h y (List.mem_cons_of_mem x hy))

theorem frame_step_changes (ld lt : List Nat) (lc : Nat) (frames : List (Int × Int × Int))
    (i : Nat) (h : frame_step ld lt lc frames i ≠ frames) :
    TICK59_MIN_US ≤ u32sub (lt.getD (i + 1) 0) (lt.getD i 0) ∧ i + 60 ≤ lc ∧
    frames.length < 10 ∧ frame_valid ld (i + 1) = true := by
  unfold frame_step at h
  simp only [] at h
  split at h
  · split at h
    · split at h
      · split at h
        · rename_i h1 h2 h3 h4
          exact ⟨h2, by omega, h1, h4⟩
        · exact absurd rfl h
      · exact absurd rfl h
    · exact absurd rfl h
  · exact absurd rfl h

theorem find_frames_few (ld lt : List Nat) (lc : Nat) (h : lc < 60) :
    find_frames ld lt lc = [] := by
  unfold find_frames
  apply foldl_noop
  intro i _
  by_contra hne
  have := (frame_step_changes ld lt lc [] i hne).2.1
  omega

theorem status_of_no_frame (d : Diag) (h : d.frames = []) :
    (status_of d).line2 ∈ ["GOOD", "WEAK", "NOISE"] := by
  unfold status_of
  rw [h]
  simp only []
  split_ifs
  · have : snprintf32 "GOOD" = "GOOD" := by decide
    simp [this]
  · have : snprintf32 "WEAK" = "WEAK" := by decide
    simp [this]
  · have : snprintf32 "NOISE" = "NOISE" := by decide
    simp [this]

theorem bit_reads_lt (ld : List Nat) (start idx : Nat) (h : idx ∈ bit_reads ld start) :
    idx < start + 59 := by
  unfold bit_reads at h
  rw [List.mem_map] at h
  obtain ⟨j, hj, rfl⟩ := h
  have hr : j ∈ List.range 59 := by
    rw [List.mem_append] at hj
    rcases hj with hj | hj
    · exact (List.takeWhile_sublist _).subset hj
    · exact (List.dropWhile_sublist _).subset ((List.take_sublist 1 _).subset hj)
  have := List.mem_range.mp hr
  omega

theorem bit_reads_all (ld : List Nat) (start : Nat) (h : frame_valid ld start = true) :
    bit_reads ld start = (List.range 59).map (fun j => start + j) := by
  unfold frame_valid at h
  rw [List.all_eq_true] at h
  unfold bit_reads
  rw [List.takeWhile_eq_self_iff.mpr h, List.dropWhile_eq_nil_iff.mpr h]
  simp

/-- C20: in every iteration `i` of the frame search, with any frame list so far: a frame
is recorded only if `low_ts[i+1] - low_ts[i] ≥ 1200000` (32-bit difference) and
`i + 60 ≤ pulse_count`, and then the 59 indices `i + 1 + j` were read; every index read
from `low_durs` in the iteration is below `pulse_count`; and if the window has fewer than
60 extracted pulses, no frame is recorded, the score is the score without the frame
points, and line2 is one of NO SIG, NO PULSE, GOOD, WEAK, NOISE. -/
theorem frame_search_guard (tlist vlist : List Nat) (n : Nat)
    (frames : List (Int × Int × Int)) (i : Nat) :
    (frame_step (extract tlist vlist n).low_durs (extract tlist vlist n).low_ts
        (extract tlist vlist n).low_durs.length frames i ≠ frames →
      TICK59_MIN_US ≤ u32sub ((extract tlist vlist n).low_ts.getD (i + 1) 0)
        ((extract tlist vlist n).low_ts.getD i 0) ∧
      i + 60 ≤ (extract tlist vlist n).low_durs.length ∧
      frame_reads (extract tlist vlist n).low_durs (extract tlist vlist n).low_ts
        (extract tlist vlist n).low_durs.length frames i
        = (List.range 59).map (fun j => i + 1 + j)) ∧
    (∀ idx, idx ∈ frame_reads (extract tlist vlist n).low_durs (extract tlist vlist n).low_ts
        (extract tlist vlist n).low_durs.length frames i →
      idx < (extract tlist vlist n).low_durs.length) ∧
    ((extract tlist vlist n).low_durs.length < 60 →
      (diagnose (extract tlist vlist n)).frames = [] ∧
      (diagnose (extract tlist vlist n)).score
        = add_other (add_shortlong
            (add_tick (add_sec 0 (diagnose (extract tlist vlist n)).sec_like)
              (diagnose (extract tlist vlist n)).tick59_like)
            (f32_div ((diagnose (extract tlist vlist n)).short_count
              + (diagnose (extract tlist vlist n)).long_count)
              (diagnose (extract tlist vlist n)).pulse_count))
            (f32_div (diagnose (extract tlist vlist n)).other
              (diagnose (extract tlist vlist n)).pulse_count) ∧
      (analyze tlist vlist n).line2 ∈ ["NO SIG", "NO PULSE", "GOOD", "WEAK", "NOISE"]) := by
  refine ⟨?_, ?_, ?_⟩
  · intro hne
    obtain ⟨h1, h2, h3, h4⟩ := frame_step_changes _ _ _ frames i hne
    refine ⟨h1, h2, ?_⟩
    unfold frame_reads
    rw [if_pos h3, if_pos h1, if_pos (by omega)]
    exact bit_reads_all _ _ h4
  · intro idx hidx
    unfold frame_reads at hidx
    split at hidx
    · split at hidx
      · split at hidx
        · have := bit_reads_lt _ _ _ hidx
          omega
        · simp at hidx
      · simp at hidx
    · simp at hidx
  · intro h
    have hff := find_frames_few (extract tlist vlist n).low_durs
      (extract tlist vlist n).low_ts (extract tlist vlist n).low_durs.length h
    have hfr : (diagnose (extract tlist vlist n)).frames = [] := hff
    refine ⟨hfr, ?_, ?_⟩
    · simp only [diagnose, hff, score_of, add_frame, List.length_nil, gt_iff_lt,
        Nat.lt_irrefl, if_false]
    · unfold analyze
      split
      · have : snprintf32 "NO SIG" = "NO SIG" := by decide
        simp [this]
      · simp only []
        split
        · have : snprintf32 "NO PULSE" = "NO PULSE" := by decide
          simp [this]
        · have h3 := status_of_no_frame _ hfr
          simp only [List.mem_cons, List.mem_singleton] at h3 ⊢
          tauto

set_option maxRecDepth 100000 in
/-- C20 witness: in the S4 window (60 pulses) iteration 0 records a frame, after a gap
of 1.9 s, with 0 + 60 ≤ 60, reading the indices 1..59, all below 60; the window holding
only the 59 pulses of the S4 frame records no frame and line2 is GOOD. -/
theorem frame_search_guard_witness :
    (extract (window_of s4_pulses).1 (window_of s4_pulses).2 121).low_durs.length = 60 ∧
    (TICK59_MIN_US ≤ u32sub
        ((extract (window_of s4_pulses).1 (window_of s4_pulses).2 121).low_ts.getD (0 + 1) 0)
        ((extract (window_of s4_pulses).1 (window_of s4_pulses).2 121).low_ts.getD 0 0) ∧
      0 + 60 ≤ (extract (window_of s4_pulses).1 (window_of s4_pulses).2 121).low_durs.length ∧
      frame_reads (extract (window_of s4_pulses).1 (window_of s4_pulses).2 121).low_durs
        (extract (window_of s4_pulses).1 (window_of s4_pulses).2 121).low_ts
        (extract (window_of s4_pulses).1 (window_of s4_pulses).2 121).low_durs.length [] 0
        = (List.range 59).map (fun j => 0 + 1 + j)) ∧
    (extract (window_of s4_pulses.tail).1 (window_of s4_pulses.tail).2 119).low_durs.length
      = 59 ∧
    (diagnose (extract (window_of s4_pulses.tail).1 (window_of s4_pulses.tail).2 119)).frames
      = [] ∧
    (analyze (window_of s4_pulses.tail).1 (window_of s4_pulses.tail).2 119).line2 = "GOOD" :=
  ⟨by decide,
   (frame_search_guard (window_of s4_pulses).1 (window_of s4_pulses).2 121 [] 0).1
      (by decide),
   by decide,
   ((frame_search_guard (window_of s4_pulses.tail).1 (window_of s4_pulses.tail).2 119 [] 0).2.2
      (by decide)).1,
   by decide⟩

/-! ### Windows of OTHER pulses only -/

theorem norm_shift_self (n : Nat) (hn : 0 < n) :
    ∀ d fuel, d ≤ 23 → d < fuel → norm_shift n n fuel (23 - d) = 23 := by
  intro d
  induction d with
  | zero =>
    intro fuel _ hf
    obtain ⟨f, rfl⟩ : ∃ f, fuel = f + 1 := ⟨fuel - 1, by omega⟩
    simp [norm_shift, Nat.mul_comm]
  | succ d ih =>
    intro fuel hd hf
    obtain ⟨f, rfl⟩ : ∃ f, fuel = f + 1 := ⟨fuel - 1, by omega⟩
    have hpow : 2 ^ (23 - (d + 1)) < 2 ^ 23 :=
      Nat.pow_lt_pow_right (by decide) (by omega)
    have hlt : ¬ (2 ^ 23 * n ≤ n * 2 ^ (23 - (d + 1))) := by
      rw [Nat.mul_comm n]
      exact Nat.not_le.mpr (Nat.mul_lt_mul_of_pos_right hpow hn)
    simp only [norm_shift, hlt, if_false]
    have e : 23 - (d + 1) + 1 = 23 - d := by omega
    rw [e]
    exact ih f (by omega) (by omega)

theorem f32_div_self (n : Nat) (hn : 0 < n) : f32_div (n : Int) n = (8388608, 23) := by
  unfold f32_div
  have hne : ¬ ((n : Int) = 0) := by omega
  have hk : norm_shift n n 48 0 = 23 := norm_shift_self n hn 23 48 (by decide) (by decide)
  have hs : (n : Int).sign = 1 := Int.sign_eq_one_of_pos (by omega)
  simp only [hne, if_false, Int.natAbs_ofNat, hk, hs, one_mul]
  unfold round_half_even
  have hq : n * 2 ^ 23 / n = 2 ^ 23 := Nat.mul_div_cancel_left _ hn
  have hr : n * 2 ^ 23 % n = 0 := Nat.mul_mod_right _ _
  simp only [hq, hr]
  simp [hn]

theorem all_other_counts (l : List Nat) (h : ∀ d, d ∈ l → is_other d = true) :
    l.countP is_short = 0 ∧ l.countP is_long = 0 := by
  constructor
  · rw [List.countP_eq_zero]
    intro d hd
    have := h d hd
    unfold is_other at this
    cases hs : is_short d <;> simp [hs] at this ⊢
  · rw [List.countP_eq_zero]
    intro d hd
    have := h d hd
    unfold is_other at this
    cases hl : is_long d <;> simp [hl] at this ⊢

theorem all_other_no_frames (ld lt : List Nat) (h : ∀ d, d ∈ ld → is_other d = true) :
    find_frames ld lt ld.length = [] := by
  unfold find_frames
  apply foldl_noop
  intro i _
  by_contra hne
  obtain ⟨_, hlen, _, hvalid⟩ := frame_step_changes ld lt ld.length [] i hne
  unfold frame_valid at hvalid
  rw [List.all_eq_true] at hvalid
  have h0 := hvalid 0 (List.mem_range.mpr (by decide))
  have hlt : i + 1 < ld.length := by omega
  rw [Nat.add_zero, List.getD_eq_getElem ld 0 hlt] at h0
  have ho := h ld[i + 1] (List.getElem_mem hlt)
  unfold is_other at ho
  cases hs : is_short ld[i + 1] <;> cases hl : is_long ld[i + 1] <;> simp [hs, hl] at h0 ho

theorem all_other_diag (ex : Extract) (hne : 0 < ex.low_durs.length)
    (h : ∀ d, d ∈ ex.low_durs → is_other d = true) :
    (diagnose ex).short_count = 0 ∧ (diagnose ex).long_count = 0 ∧
    (diagnose ex).other = ((diagnose ex).pulse_count : Int) ∧ (diagnose ex).frames = [] ∧
    (diagnose ex).score
      = add_tick (add_sec 0 (diagnose ex).sec_like) (diagnose ex).tick59_like := by
  obtain ⟨hs, hl⟩ := all_other_counts ex.low_durs h
  have hf := all_other_no_frames ex.low_durs ex.low_ts h
  have hge7 : f32_ge (0, 0) dbl_0_7 = false := by decide
  have hge5 : f32_ge (0, 0) dbl_0_5 = false := by decide
  have hle2 : f32_le (8388608, 23) dbl_0_2 = false := by decide
  have hle4 : f32_le (8388608, 23) dbl_0_4 = false := by decide
  have hz : f32_div 0 ex.low_durs.length = (0, 0) := by simp [f32_div]
  simp only [diagnose, classify_fold, hs, hl, hf, Nat.cast_zero, sub_zero, add_zero,
    f32_div_self _ hne, hz, score_of, add_frame, add_other, add_shortlong, hge7, hge5, hle2,
    hle4, List.length_nil, gt_iff_lt, Nat.lt_irrefl, if_false, Bool.false_eq_true]
  exact ⟨trivial, trivial, trivial, trivial, trivial⟩

set_option maxRecDepth 100000 in
/-- C12 (as stated) fails: the ring filled with twelve pulses of 300 ms whose rising
edges are 1 s apart has every pulse outside both bands (`short_count = 0`,
`long_count = 0`, `other = 12`), yet `sec_like = 11` gives `quality_score = 40` and
line2 = "WEAK". -/
theorem noise_with_second_ticks :
    (diagnose (extract (window_of noise_pulses).1 (window_of noise_pulses).2 25)).short_count
      = 0 ∧
    (diagnose (extract (window_of noise_pulses).1 (window_of noise_pulses).2 25)).long_count
      = 0 ∧
    (diagnose (extract (window_of noise_pulses).1 (window_of noise_pulses).2 25)).other = 12 ∧
    (diagnose (extract (window_of noise_pulses).1 (window_of noise_pulses).2 25)).sec_like
      = 11 ∧
    (analyze_and_diagnose (run_irq boot (edges_of noise_pulses))).quality_score = 40 ∧
    (analyze_and_diagnose (run_irq boot (edges_of noise_pulses))).line2 = "WEAK" := by
  and_intros
  all_goals decide

/-- C12 (amended): for every window of at least 4 edges with at least one pulse in which
every pulse duration lies outside both bands, `short_count = 0`, `long_count = 0`,
`other = pulse_count`, no frame is decoded, and `quality_score` is the `sec_like` points
plus the `tick59_like` points; when moreover `sec_like < 5` and `tick59_like < 1`, then
`quality_score ≤ 10` and line2 = "NOISE". -/
theorem noise_window (tlist vlist : List Nat) (n : Nat) (hn : 4 ≤ n)
    (hne : 0 < (extract tlist vlist n).low_durs.length)
    (hall : ∀ d, d ∈ (extract tlist vlist n).low_durs → is_other d = true) :
    (diagnose (extract tlist vlist n)).short_count = 0 ∧
    (diagnose (extract tlist vlist n)).long_count = 0 ∧
    (diagnose (extract tlist vlist n)).other
      = ((diagnose (extract tlist vlist n)).pulse_count : Int) ∧
    (diagnose (extract tlist vlist n)).frames = [] ∧
    (analyze tlist vlist n).quality_score
      = add_tick (add_sec 0 (diagnose (extract tlist vlist n)).sec_like)
          (diagnose (extract tlist vlist n)).tick59_like ∧
    ((diagnose (extract tlist vlist n)).sec_like < 5 →
      (diagnose (extract tlist vlist n)).tick59_like < 1 →
      (analyze tlist vlist n).quality_score ≤ 10 ∧ (analyze tlist vlist n).line2 = "NOISE") := by
  obtain ⟨h1, h2, h3, h4, h5⟩ := all_other_diag (extract tlist vlist n) hne hall
  have ha : analyze tlist vlist n = status_of (diagnose (extract tlist vlist n)) := by
    unfold analyze
    rw [if_neg (by omega)]
    simp only []
    rw [if_neg (by omega)]
  have hq : (analyze tlist vlist n).quality_score
      = add_tick (add_sec 0 (diagnose (extract tlist vlist n)).sec_like)
          (diagnose (extract tlist vlist n)).tick59_like := by
    rw [ha, status_of_score, h5]
  refine ⟨h1, h2, h3, h4, hq, ?_⟩
  intro hsec htick
  have hle : (diagnose (extract tlist vlist n)).score ≤ 10 := by
    rw [h5]
    unfold add_tick add_sec
    split_ifs <;> omega
  refine ⟨by rw [ha, status_of_score]; exact hle, ?_⟩
  rw [ha]
  unfold status_of
  rw [h4]
  simp only []
  rw [if_neg (by omega), if_neg (by omega)]
  show snprintf32 "NOISE" = "NOISE"
  decide

/-- C12 witness: two pulses of 300 ms whose rising edges are 0.5 s apart: both OTHER,
no one-second gap and no long gap, so the score is 0 and line2 is NOISE. -/
theorem noise_window_witness :
    (extract [1000, 200000, 500000, 700000, 1000000] [1, 0, 1, 0, 1] 5).low_durs
      = [300000, 300000] ∧
    (diagnose (extract [1000, 200000, 500000, 700000, 1000000] [1, 0, 1, 0, 1] 5)).other = 2 ∧
    ((analyze [1000, 200000, 500000, 700000, 1000000] [1, 0, 1, 0, 1] 5).quality_score ≤ 10 ∧
     (analyze [1000, 200000, 500000, 700000, 1000000] [1, 0, 1, 0, 1] 5).line2 = "NOISE") :=
  ⟨by decide, by decide,
   (noise_window [1000, 200000, 500000, 700000, 1000000] [1, 0, 1, 0, 1] 5 (by decide)
      (by decide) (by decide)).2.2.2.2.2 (by decide) (by decide)⟩

/-! ### Length of the status lines -/

theorem snprintf32_length_le (s : String) : (snprintf32 s).length ≤ s.length := by
  unfold snprintf32
  rw [String.length_mk, List.length_take, String.length_data]
  exact Nat.min_le_right _ _

set_option maxRecDepth 1000000 in
theorem fmt_d_length_nat : ∀ x : Nat, x < 1024 → (fmt_d (x : Int)).length = digits_upto4 x := by
  decide

theorem fmt_02d_length_nat : ∀ x : Nat, x < 100 → (fmt_02d (x : Int)).length = 2 := by
  decide

theorem fmt_d_length_score (q : Int) (h0 : 0 ≤ q) (h1 : q ≤ 100) : (fmt_d q).length ≤ 3 := by
  obtain ⟨x, rfl⟩ := Int.eq_ofNat_of_zero_le h0
  rw [fmt_d_length_nat x (by omega)]
  unfold digits_upto4
  split_ifs <;> omega

theorem fmt_02d_length (v : Int) (h0 : 0 ≤ v) (h1 : v ≤ 99) : (fmt_02d v).length = 2 := by
  obtain ⟨x, rfl⟩ := Int.eq_ofNat_of_zero_le h0
  exact fmt_02d_length_nat x (by omega)

theorem fmt_counts_length (a b : Nat) (h : a + b ≤ 1023) :
    (fmt_d (a : Int) ++ "/" ++ fmt_d (b : Int)).length ≤ 8 := by
  rw [String.length_append, String.length_append, fmt_d_length_nat a (by omega),
    fmt_d_length_nat b (by omega)]
  have h1 : ("/" : String).length = 1 := by decide
  rw [h1]
  unfold digits_upto4
  split_ifs <;> omega

theorem foldl_invariant {α β : Type} (P : α → Prop) (f : α → β → α) (l : List β) (a : α)
    (h0 : P a) (hstep : ∀ a x, P a → P (f a x)) : P (l.foldl f a) := by
  induction l generalizing a with
  | nil => exact h0
  | cons x t ih => exact ih (f a x) (hstep a x h0)

theorem frame_step_bounded (ld lt : List Nat) (lc : Nat) (frames : List (Int × Int × Int))
    (i : Nat) (h : FramesBounded frames) : FramesBounded (frame_step ld lt lc frames i) := by
  unfold frame_step
  simp only []
  split
  · split
    · split
      · split
        · split
          · rename_i mi hr d wd mo yr hdec
            have hb := decode_frame_bounds _ mi hr d wd mo yr hdec
            intro f hf
            rw [List.mem_append, List.mem_singleton] at hf
            rcases hf with hf | hf
            · exact h f hf
            · subst hf
              exact ⟨hb.1, hb.2.1, hb.2.2.1⟩
          · exact h
        · exact h
      · exact h
    · exact h
  · exact h

theorem find_frames_bounded (ld lt : List Nat) (lc : Nat) :
    FramesBounded (find_frames ld lt lc) := by
  unfold find_frames
  apply foldl_invariant FramesBounded
  · intro f hf
    simp at hf
  · intro a x ha
    exact frame_step_bounded ld lt lc a x ha

theorem diagnose_counts (ex : Extract) :
    (diagnose ex).short_count = (ex.low_durs.countP is_short : Nat) ∧
    (diagnose ex).long_count = (ex.low_durs.countP is_long : Nat) ∧
    ex.low_durs.countP is_short + ex.low_durs.countP is_long ≤ ex.low_durs.length := by
  have hp := count_partition ex.low_durs
  simp only [diagnose, classify_fold]
  exact ⟨trivial, trivial, by omega⟩

theorem diagnose_score_bounds (ex : Extract) :
    0 ≤ (diagnose ex).score ∧ (diagnose ex).score ≤ 100 :=
  score_of_bounds _ _ _ _ _

theorem status_of_lengths (ex : Extract) (hlen : ex.low_durs.length ≤ 1023) :
    (status_of (diagnose ex)).line1.length ≤ 8 ∧ (status_of (diagnose ex)).line2.length ≤ 8 ∧
    (status_of (diagnose ex)).line3.length ≤ 8 := by
  obtain ⟨hq0, hq1⟩ := diagnose_score_bounds ex
  obtain ⟨hs, hl, hsum⟩ := diagnose_counts ex
  have hfb : FramesBounded (diagnose ex).frames := find_frames_bounded _ _ _
  have hline1 : (snprintf32 (fmt_d (diagnose ex).score)).length ≤ 8 :=
    Nat.le_trans (snprintf32_length_le _)
      (Nat.le_trans (fmt_d_length_score _ hq0 hq1) (by decide))
  have hcolon : (":" : String).length = 1 := by decide
  have hslash : ("/" : String).length = 1 := by decide
  unfold status_of
  simp only []
  split
  · rename_i m h day rest hfr
    have hb := hfb (m, h, day) (by rw [hfr]; exact List.mem_cons_self _ _)
    simp only at hb
    refine ⟨hline1, ?_, ?_⟩
    · refine Nat.le_trans (snprintf32_length_le _) ?_
      rw [String.length_append, String.length_append, hcolon,
        fmt_02d_length h hb.2.1.1 (by omega), fmt_02d_length m hb.1.1 (by omega)]
      decide
    · refine Nat.le_trans (snprintf32_length_le _) ?_
      rw [String.length_append, String.length_append, hslash,
        fmt_02d_length day hb.2.2.1 (by omega), fmt_02d_length 0 (by decide) (by decide)]
      decide
  · have hgood : (snprintf32 "GOOD").length ≤ 8 := by decide
    have hnoframe : (snprintf32 "NO FRAME").length ≤ 8 := by decide
    have hweak : (snprintf32 "WEAK").length ≤ 8 := by decide
    have hnoise : (snprintf32 "NOISE").length ≤ 8 := by decide
    have hempty : (snprintf32 "").length ≤ 8 := by decide
    split_ifs
    · exact ⟨hline1, hgood, hnoframe⟩
    · refine ⟨hline1, hweak, ?_⟩
      refine Nat.le_trans (snprintf32_length_le _) ?_
      rw [hs, hl]
      exact fmt_counts_length _ _ (by omega)
    · exact ⟨hline1, hnoise, hempty⟩

/-- C15: for every snapshot of at most 2048 edges (whatever the levels), and for every
ring, each of line1, line2 and line3 left by `analyze_and_diagnose` is at most 8
characters long. -/
theorem line_lengths (tlist vlist : List Nat) (n : Nat) (hn : n ≤ 2048) :
    ((analyze tlist vlist n).line1.length ≤ 8 ∧ (analyze tlist vlist n).line2.length ≤ 8 ∧
      (analyze tlist vlist n).line3.length ≤ 8) ∧
    (∀ s : Ring, (analyze_and_diagnose s).line1.length ≤ 8 ∧
      (analyze_and_diagnose s).line2.length ≤ 8 ∧ (analyze_and_diagnose s).line3.length ≤ 8) := by
  have key : ∀ (t v : List Nat) (m : Nat), m ≤ 2048 →
      (analyze t v m).line1.length ≤ 8 ∧ (analyze t v m).line2.length ≤ 8 ∧
      (analyze t v m).line3.length ≤ 8 := by
    intro t v m hm
    unfold analyze
    split
    · exact ⟨by decide, by decide, by decide⟩
    · simp only []
      split
      · exact ⟨by decide, by decide, by decide⟩
      · have h2 := extract_low_count_le t v m
        exact status_of_lengths _ (by omega)
  refine ⟨key tlist vlist n hn, ?_⟩
  intro s
  apply key
  unfold snapshot
  simp only [BUF_SZ]
  split <;> omega

set_option maxRecDepth 100000 in
/-- C15 witness: the window of twelve 300 ms pulses takes the WEAK branch with
line3 = "0/0". -/
theorem line_lengths_witness :
    (analyze (window_of noise_pulses).1 (window_of noise_pulses).2 25).line3 = "0/0" ∧
    ((analyze (window_of noise_pulses).1 (window_of noise_pulses).2 25).line1.length ≤ 8 ∧
     (analyze (window_of noise_pulses).1 (window_of noise_pulses).2 25).line2.length ≤ 8 ∧
     (analyze (window_of noise_pulses).1 (window_of noise_pulses).2 25).line3.length ≤ 8) :=
  ⟨by decide,
   (line_lengths (window_of noise_pulses).1 (window_of noise_pulses).2 25 (by decide)).1⟩

/-! ### Rising edges of the pulses -/

theorem pair_step_ends (a b ta tb : Nat) (st : Extract) (hlt : ta < tb) (hb : tb < 2 ^ 32)
    (h : EndsInv st ta) : EndsInv (pair_step a b tb st) tb := by
  obtain ⟨h1, h2, h3, h4⟩ := h
  rcases st with ⟨ld, lt, rt, ls, act⟩
  simp only at h1 h2 h3 h4
  unfold pair_step EndsInv
  by_cases hf : a = 1 ∧ b = 0
  · simp only [hf, and_self, if_true]
    exact ⟨h1, h2, h3, fun _ => Nat.le_refl _⟩
  · by_cases hr : a = 0 ∧ b = 1 ∧ act = true
    · obtain ⟨ha, hb1, hact⟩ := hr
      subst hact
      have hls := h4 rfl
      have hu : u32sub tb ls = tb - ls := u32sub_eq tb ls (by omega) hb
      have hpos : tb - ls > 0 := by omega
      have hf2 : ¬ ((0 : Nat) = 1 ∧ (1 : Nat) = 0) := by decide
      simp only [ha, hb1, hf2, if_false, and_self, if_true, hu, hpos]
      refine ⟨by simp [h1], ?_, ?_, by simp⟩
      · rw [List.zipWith_append _ _ _ _ _ h1, h2]
        simp only [List.zipWith_cons_cons, List.zipWith_nil_left]
        congr 2
        omega
      · intro x hx
        rw [List.mem_append, List.mem_singleton] at hx
        rcases hx with hx | hx
        · exact h3 x hx
        · rw [hx]; exact hb
    · simp only [hf, hr, if_false]
      exact ⟨h1, h2, h3, fun hact => Nat.le_trans (h4 hact) (Nat.le_of_lt hlt)⟩

theorem extract_ends (tlist vlist : List Nat) (n : Nat)
    (hinc : ∀ i, i + 1 < n → tlist.getD i 0 < tlist.getD (i + 1) 0)
    (hbound : ∀ i, i < n → tlist.getD i 0 < 2 ^ 32) (k : Nat) (hk : k + 1 ≤ n) :
    EndsInv ((List.range k).foldl (extract_step tlist vlist) ⟨[], [], [], 0, false⟩)
      (tlist.getD k 0) := by
  induction k with
  | zero => exact ⟨rfl, rfl, by simp, by simp⟩
  | succ k ih =>
    rw [List.range_succ, List.foldl_append]
    exact pair_step_ends _ _ _ _ _ (hinc k (by omega)) (hbound (k + 1) (by omega))
      (ih (by omega))

/-! ### A clean minute frame -/

theorem fmt_02d_two_digits : ∀ x : Nat, x < 100 → fmt_02d (x : Int) = two_digits x := by
  decide

theorem isFrameOf_congr (b1 b2 : Nat → Nat) (mn hr day wd mon yr : Nat)
    (h : ∀ i, i < 59 → b2 i = b1 i) (hf : IsFrameOf b1 mn hr day wd mon yr) :
    IsFrameOf b2 mn hr day wd mon yr := by
  obtain ⟨h0, h20, hm, hpm, hh, hph, hd, hw, hmo, hy, hpd⟩ := hf
  have o1 : ones b2 21 7 = ones b1 21 7 := by
    rw [ones_congr b2 21 (fun i => b1 (21 + i)) 7 (fun i hi => h (21 + i) (by omega)),
      ones_congr b1 21 (fun i => b1 (21 + i)) 7 (fun _ _ => rfl)]
  have o2 : ones b2 29 6 = ones b1 29 6 := by
    rw [ones_congr b2 29 (fun i => b1 (29 + i)) 6 (fun i hi => h (29 + i) (by omega)),
      ones_congr b1 29 (fun i => b1 (29 + i)) 6 (fun _ _ => rfl)]
  have o3 : ones b2 36 22 = ones b1 36 22 := by
    rw [ones_congr b2 36 (fun i => b1 (36 + i)) 22 (fun i hi => h (36 + i) (by omega)),
      ones_congr b1 36 (fun i => b1 (36 + i)) 22 (fun _ _ => rfl)]
  refine ⟨by rw [h 0 (by omega)]; exact h0, by rw [h 20 (by omega)]; exact h20,
    fun i hi => by rw [h (21 + i) (by omega)]; exact hm i hi,
    by rw [h 28 (by omega), o1]; exact hpm,
    fun i hi => by rw [h (29 + i) (by omega)]; exact hh i hi,
    by rw [h 35 (by omega), o2]; exact hph,
    fun i hi => by rw [h (36 + i) (by omega)]; exact hd i hi,
    fun i hi => by rw [h (42 + i) (by omega)]; exact hw i hi,
    fun i hi => by rw [h (45 + i) (by omega)]; exact hmo i hi,
    fun i hi => by rw [h (50 + i) (by omega)]; exact hy i hi,
    by rw [h 58 (by omega), o3]; exact hpd⟩

theorem frame_bits_get (ld : List Nat) (start i : Nat) (hi : i < 59) :
    frame_of (frame_bits ld start) i
      = if is_short (ld.getD (start + i) 0) = true then 0 else 1 := by
  unfold frame_of frame_bits
  rw [List.getD_eq_getElem _ 0 (by simpa using hi)]
  simp

theorem gap_fold_seconds (rt : List Nat) (l : List Nat) (c : Int × Int)
    (h : ∀ i, i ∈ l → 900000 ≤ u32sub (rt.getD (i + 1) 0) (rt.getD i 0) ∧
      u32sub (rt.getD (i + 1) 0) (rt.getD i 0) ≤ 1100000) :
    l.foldl (gap_step rt) c = (c.1 + (l.length : Nat), c.2) := by
  induction l generalizing c with
  | nil => simp
  | cons i t ih =>
    rw [List.foldl_cons, ih _ (fun j hj => h j (List.mem_cons_of_mem i hj))]
    have hi := h i (List.mem_cons_self i t)
    have hnt : ¬ (u32sub (rt.getD (i + 1) 0) (rt.getD i 0) ≥ TICK59_MIN_US) := by
      unfold TICK59_MIN_US
      omega
    unfold gap_step
    simp only [hi, and_self, if_true, hnt, if_false, List.length_cons]
    simp only [Prod.mk.injEq, and_true]
    push_cast
    omega

theorem clean_frame_frames (ld lt : List Nat) (bits : Nat → Nat)
    (mn hr day wd mon yr : Nat)
    (hmn : mn < 60) (hhr : hr < 24) (hday : 1 ≤ day ∧ day ≤ 31) (hwd : 1 ≤ wd ∧ wd ≤ 7)
    (hmon : 1 ≤ mon ∧ mon ≤ 12) (hyr : yr < 100)
    (hf : IsFrameOf bits mn hr day wd mon yr)
    (hgap : TICK59_MIN_US ≤ u32sub (lt.getD 1 0) (lt.getD 0 0))
    (hbits : ∀ j, j < 59 → (bits j = 0 ∧ is_short (ld.getD (1 + j) 0) = true) ∨
      (bits j = 1 ∧ is_long (ld.getD (1 + j) 0) = true)) :
    find_frames ld lt 60 = [((mn : Int), (hr : Int), (day : Int))] := by
  have hvalid : frame_valid ld (0 + 1) = true := by
    unfold frame_valid
    rw [List.all_eq_true]
    intro j hj
    rw [Nat.zero_add]
    rcases hbits j (List.mem_range.mp hj) with h | h
    · simp only [h.2, Bool.true_or]
    · simp only [h.2, Bool.or_true]
  have hsame : ∀ i, i < 59 → frame_of (frame_bits ld (0 + 1)) i = bits i := by
    intro i hi
    rw [frame_bits_get ld (0 + 1) i hi, Nat.zero_add]
    rcases hbits i hi with h | h
    · simp only [h.1, h.2, if_true]
    · have hns : is_short (ld.getD (1 + i) 0) = false := by
        cases hs : is_short (ld.getD (1 + i) 0)
        · rfl
        · have := short_not_long _ hs
          rw [h.2] at this
          exact absurd this (by decide)
      simp only [h.1, hns, Bool.false_eq_true, if_false]
  have hdec := decode_frame_of_isFrame (frame_of (frame_bits ld (0 + 1))) mn hr day wd mon yr
    hmn hhr hday hwd hmon hyr (isFrameOf_congr bits _ mn hr day wd mon yr hsame hf)
  have hstep0 : frame_step ld lt 60 [] 0 = [((mn : Int), (hr : Int), (day : Int))] := by
    unfold frame_step
    simp only [List.length_nil, Nat.zero_lt_succ, if_true, Nat.zero_add] at hgap hvalid hdec ⊢
    simp only [ge_iff_le, hgap, if_true, Nat.reduceAdd, Nat.le_refl, hvalid, hdec,
      List.nil_append]
  have hrange : List.range (60 - 1) = 0 :: List.range' 1 58 := by decide
  unfold find_frames
  rw [hrange, List.foldl_cons, hstep0]
  apply foldl_noop
  intro i hi
  by_contra hne
  have h1 := (frame_step_changes ld lt 60 _ i hne).2.1
  have h2 := (List.mem_range'_1.mp hi).1
  omega

theorem clean_frame_gaps (rt : List Nat)
    (hrgap : TICK59_MIN_US ≤ u32sub (rt.getD 1 0) (rt.getD 0 0))
    (hsec : ∀ i, 1 ≤ i → i < 59 → 900000 ≤ u32sub (rt.getD (i + 1) 0) (rt.getD i 0) ∧
      u32sub (rt.getD (i + 1) 0) (rt.getD i 0) ≤ 1100000) :
    (List.range (60 - 1)).foldl (gap_step rt) (0, 0) = (58, 1) := by
  have hrange : List.range (60 - 1) = 0 :: List.range' 1 58 := by decide
  have h0 : gap_step rt (0, 0) 0 = (0, 1) := by
    unfold gap_step
    unfold TICK59_MIN_US at hrgap ⊢
    have hnb : ¬ (900000 ≤ u32sub (rt.getD (0 + 1) 0) (rt.getD 0 0) ∧
        u32sub (rt.getD (0 + 1) 0) (rt.getD 0 0) ≤ 1100000) := by
      rw [Nat.zero_add]
      omega
    have hge : u32sub (rt.getD (0 + 1) 0) (rt.getD 0 0) ≥ 1200000 := by
      rw [Nat.zero_add]
      exact hrgap
    simp only [hnb, if_false, hge, if_true]
    rfl
  rw [hrange, List.foldl_cons, h0, gap_fold_seconds rt _ _ (fun i hi => by
    have h := List.mem_range'_1.mp hi
    exact hsec i h.1 (by omega))]
  simp

theorem clean_frame_diag (ex : Extract) (bits : Nat → Nat) (mn hr day wd mon yr : Nat)
    (hmn : mn < 60) (hhr : hr < 24) (hday : 1 ≤ day ∧ day ≤ 31) (hwd : 1 ≤ wd ∧ wd ≤ 7)
    (hmon : 1 ≤ mon ∧ mon ≤ 12) (hyr : yr < 100)
    (hf : IsFrameOf bits mn hr day wd mon yr)
    (hcount : ex.low_durs.length = 60) (hrcount : ex.rising_times.length = 60)
    (hfirst : is_short (ex.low_durs.getD 0 0) = true ∨ is_long (ex.low_durs.getD 0 0) = true)
    (hgap : TICK59_MIN_US ≤ u32sub (ex.low_ts.getD 1 0) (ex.low_ts.getD 0 0))
    (hrgap : TICK59_MIN_US ≤ u32sub (ex.rising_times.getD 1 0) (ex.rising_times.getD 0 0))
    (hsec : ∀ i, 1 ≤ i → i < 59 →
      900000 ≤ u32sub (ex.rising_times.getD (i + 1) 0) (ex.rising_times.getD i 0) ∧
      u32sub (ex.rising_times.getD (i + 1) 0) (ex.rising_times.getD i 0) ≤ 1100000)
    (hbits : ∀ j, j < 59 → (bits j = 0 ∧ is_short (ex.low_durs.getD (1 + j) 0) = true) ∨
      (bits j = 1 ∧ is_long (ex.low_durs.getD (1 + j) 0) = true)) :
    (diagnose ex).frames = [((mn : Int), (hr : Int), (day : Int))] ∧
    (diagnose ex).score = 100 := by
  have hfr := clean_frame_frames ex.low_durs ex.low_ts bits mn hr day wd mon yr hmn hhr hday
    hwd hmon hyr hf hgap hbits
  have hg := clean_frame_gaps ex.rising_times hrgap hsec
  have hnone : ex.low_durs.countP is_other = 0 := by
    rw [List.countP_eq_zero]
    intro d hd
    obtain ⟨i, hi, rfl⟩ := List.getElem_of_mem hd
    have hsl : is_short ex.low_durs[i] = true ∨ is_long ex.low_durs[i] = true := by
      rw [← List.getD_eq_getElem ex.low_durs 0 hi]
      rcases Nat.eq_zero_or_pos i with h0 | hpos
      · rw [h0]; exact hfirst
      · have hj : 1 + (i - 1) = i := by omega
        have := hbits (i - 1) (by omega)
        rw [hj] at this
        rcases this with h | h
        · exact Or.inl h.2
        · exact Or.inr h.2
    unfold is_other
    rcases hsl with h | h
    · simp only [h, Bool.not_true, Bool.false_and, Bool.false_eq_true, not_false_eq_true]
    · simp only [h, Bool.not_true, Bool.and_false, Bool.false_eq_true, not_false_eq_true]
  have hp := count_partition ex.low_durs
  rw [hnone, hcount] at hp
  have e1 : ((ex.low_durs.countP is_short : Nat) : Int) + ((ex.low_durs.countP is_long : Nat) : Int)
      = 60 := by omega
  have e2 : ((60 : Nat) : Int) - ((ex.low_durs.countP is_short : Nat) : Int)
      - ((ex.low_durs.countP is_long : Nat) : Int) = 0 := by omega
  have hscore : score_of 58 1 (f32_div 60 60) (f32_div 0 60) 1 = 100 := by decide
  have hcf := classify_fold ex.low_durs
  rw [hcount] at hcf
  unfold diagnose
  simp only [hcount, hrcount, hcf, hfr, hg, e1, e2, List.length_singleton]
  exact ⟨trivial, hscore⟩

theorem two_digits_line (a b : Nat) (sep : String) (hsep : sep.length = 1) :
    snprintf32 (two_digits a ++ sep ++ two_digits b) = two_digits a ++ sep ++ two_digits b := by
  apply snprintf32_short
  rw [String.length_append, String.length_append, hsep]
  have h2 : ∀ x, (two_digits x).length = 2 := fun _ => rfl
  rw [h2, h2]
  decide

theorem clean_frame_window (tlist vlist : List Nat) (n : Nat) (bits : Nat → Nat)
    (mn hr day wd mon yr : Nat) (hn : 4 ≤ n)
    (hmn : mn < 60) (hhr : hr < 24) (hday : 1 ≤ day ∧ day ≤ 31) (hwd : 1 ≤ wd ∧ wd ≤ 7)
    (hmon : 1 ≤ mon ∧ mon ≤ 12) (hyr : yr < 100)
    (hf : IsFrameOf bits mn hr day wd mon yr)
    (hcount : (extract tlist vlist n).low_durs.length = 60)
    (hrcount : (extract tlist vlist n).rising_times.length = 60)
    (hfirst : is_short ((extract tlist vlist n).low_durs.getD 0 0) = true ∨
      is_long ((extract tlist vlist n).low_durs.getD 0 0) = true)
    (hgap : TICK59_MIN_US ≤ u32sub ((extract tlist vlist n).low_ts.getD 1 0)
      ((extract tlist vlist n).low_ts.getD 0 0))
    (hrgap : TICK59_MIN_US ≤ u32sub ((extract tlist vlist n).rising_times.getD 1 0)
      ((extract tlist vlist n).rising_times.getD 0 0))
    (hsec : ∀ i, i < 59 → 1 ≤ i →
      900000 ≤ u32sub ((extract tlist vlist n).rising_times.getD (i + 1) 0)
        ((extract tlist vlist n).rising_times.getD i 0) ∧
      u32sub ((extract tlist vlist n).rising_times.getD (i + 1) 0)
        ((extract tlist vlist n).rising_times.getD i 0) ≤ 1100000)
    (hbits : ∀ j, j < 59 →
      (bits j = 0 ∧ is_short ((extract tlist vlist n).low_durs.getD (1 + j) 0) = true) ∨
      (bits j = 1 ∧ is_long ((extract tlist vlist n).low_durs.getD (1 + j) 0) = true)) :
    (diagnose (extract tlist vlist n)).frames = [((mn : Int), (hr : Int), (day : Int))] ∧
    (analyze tlist vlist n).quality_score = 100 ∧
    80 ≤ (analyze tlist vlist n).quality_score ∧
    (analyze tlist vlist n).line2 = two_digits hr ++ ":" ++ two_digits mn := by
  obtain ⟨hfr, hscore⟩ := clean_frame_diag (extract tlist vlist n) bits mn hr day wd mon yr
    hmn hhr hday hwd hmon hyr hf hcount hrcount hfirst hgap hrgap
    (fun i h1 h2 => hsec i h2 h1) hbits
  have ha : analyze tlist vlist n = status_of (diagnose (extract tlist vlist n)) := by
    unfold analyze
    rw [if_neg (by omega)]
    simp only []
    rw [if_neg (by omega)]
  have hq : (analyze tlist vlist n).quality_score = 100 := by
    rw [ha, status_of_score, hscore]
  refine ⟨hfr, hq, by omega, ?_⟩
  rw [ha]
  unfold status_of
  rw [hfr]
  simp only []
  rw [fmt_02d_two_digits hr (by omega), fmt_02d_two_digits mn (by omega)]
  exact two_digits_line hr mn ":" (by decide)

theorem extract_zip_eq_scan (tlist vlist : List Nat) (n : Nat) (hn : 4 ≤ n)
    (hv : ∀ i, i < n → vlist.getD i 0 ≤ 1)
    (hinc : ∀ i, i + 1 < n → tlist.getD i 0 < tlist.getD (i + 1) 0)
    (hbound : ∀ i, i < n → tlist.getD i 0 < 2 ^ 32) :
    (extract tlist vlist n).low_ts.zip (extract tlist vlist n).low_durs
      = scan_pulses tlist vlist n := by
  have h := extract_pulses_suffix tlist vlist n hv hinc hbound (n - 1) 0
    ⟨[], [], [], 0, false⟩ (by omega) rfl (by simp)
  unfold extract scan_pulses
  rw [List.range_eq_range', h]
  simp

theorem extract_fields_of_scan (tlist vlist : List Nat) (n : Nat) (hn : 4 ≤ n)
    (hv : ∀ i, i < n → vlist.getD i 0 ≤ 1)
    (hinc : ∀ i, i + 1 < n → tlist.getD i 0 < tlist.getD (i + 1) 0)
    (hbound : ∀ i, i < n → tlist.getD i 0 < 2 ^ 32) :
    (extract tlist vlist n).low_durs.length = (scan_pulses tlist vlist n).length ∧
    (extract tlist vlist n).rising_times.length = (scan_pulses tlist vlist n).length ∧
    (∀ i, (extract tlist vlist n).low_ts.getD i 0 = pulse_start (scan_pulses tlist vlist n) i) ∧
    (∀ i, (extract tlist vlist n).low_durs.getD i 0
      = pulse_dur (scan_pulses tlist vlist n) i) ∧
    (∀ i, i < (scan_pulses tlist vlist n).length →
      (extract tlist vlist n).rising_times.getD i 0 = pulse_end (scan_pulses tlist vlist n) i ∧
      pulse_end (scan_pulses tlist vlist n) i < 2 ^ 32) := by
  have hz := extract_zip_eq_scan tlist vlist n hn hv hinc hbound
  obtain ⟨hlen, hrz, hrb, _⟩ := extract_ends tlist vlist n hinc hbound (n - 1) (by omega)
  have hex : (List.range (n - 1)).foldl (extract_step tlist vlist) ⟨[], [], [], 0, false⟩
      = extract tlist vlist n := rfl
  rw [hex] at hlen hrz hrb
  generalize extract tlist vlist n = ex at hz hlen hrz hrb
  generalize scan_pulses tlist vlist n = ps at hz
  have hts : ex.low_ts = ps.map Prod.fst := by
    rw [← hz]; exact (List.map_fst_zip _ _ (Nat.le_of_eq hlen)).symm
  have hds : ex.low_durs = ps.map Prod.snd := by
    rw [← hz]; exact (List.map_snd_zip _ _ (Nat.le_of_eq hlen.symm)).symm
  have hst : ∀ i, ex.low_ts.getD i 0 = pulse_start ps i := by
    intro i
    rw [hts]
    exact List.getD_map ps ((0 : Nat), (0 : Nat)) Prod.fst
  have hdu : ∀ i, ex.low_durs.getD i 0 = pulse_dur ps i := by
    intro i
    rw [hds]
    exact List.getD_map ps ((0 : Nat), (0 : Nat)) Prod.snd
  have hl1 : ex.low_durs.length = ps.length := by rw [hds, List.length_map]
  have hl2 : ex.low_ts.length = ps.length := by rw [hts, List.length_map]
  have hl3 : ex.rising_times.length = ps.length := by
    rw [hrz, List.length_zipWith, hl1, hl2, Nat.min_self]
  refine ⟨hl1, hl3, hst, hdu, ?_⟩
  intro i hi
  have hi3 : i < ex.rising_times.length := by omega
  have hval : ex.rising_times.getD i 0 = pulse_end ps i := by
    unfold pulse_end
    rw [← hst i, ← hdu i, List.getD_eq_getElem _ 0 hi3,
      List.getD_eq_getElem _ 0 (by omega : i < ex.low_ts.length),
      List.getD_eq_getElem _ 0 (by omega : i < ex.low_durs.length)]
    simp only [hrz, List.getElem_zipWith]
  refine ⟨hval, ?_⟩
  rw [← hval, List.getD_eq_getElem _ 0 hi3]
  exact hrb _ (List.getElem_mem hi3)

/-- C11: for every valid tuple and every window of at least 4 edges with levels in
{0,1} and strictly increasing 32-bit timestamps whose pulses (`scan_pulses`) are 60 in
number, the first SHORT or LONG, then, after a start-to-start gap and a rising-to-rising
gap of at least 1.2 s, 59 pulses whose consecutive rising edges are 0.9..1.1 s apart and
whose durations are SHORT for bit 0 and LONG for bit 1 of a frame carrying the tuple:
`analyze_and_diagnose` decodes exactly that frame, `quality_score = 100 ≥ 80`, and line2
is the two-digit hour, ':' and the two-digit minute. -/
theorem clean_minute_frame (tlist vlist : List Nat) (n : Nat) (bits : Nat → Nat)
    (mn hr day wd mon yr : Nat) (hn : 4 ≤ n)
    (hv : ∀ i, i < n → vlist.getD i 0 ≤ 1)
    (hinc : ∀ i, i + 1 < n → tlist.getD i 0 < tlist.getD (i + 1) 0)
    (hbound : ∀ i, i < n → tlist.getD i 0 < 2 ^ 32)
    (hmn : mn < 60) (hhr : hr < 24) (hday : 1 ≤ day ∧ day ≤ 31) (hwd : 1 ≤ wd ∧ wd ≤ 7)
    (hmon : 1 ≤ mon ∧ mon ≤ 12) (hyr : yr < 100)
    (hf : IsFrameOf bits mn hr day wd mon yr)
    (hcount : (scan_pulses tlist vlist n).length = 60)
    (hfirst : is_short (pulse_dur (scan_pulses tlist vlist n) 0) = true ∨
      is_long (pulse_dur (scan_pulses tlist vlist n) 0) = true)
    (hgap : TICK59_MIN_US ≤ pulse_start (scan_pulses tlist vlist n) 1
      - pulse_start (scan_pulses tlist vlist n) 0)
    (hrgap : TICK59_MIN_US ≤ pulse_end (scan_pulses tlist vlist n) 1
      - pulse_end (scan_pulses tlist vlist n) 0)
    (hsec : ∀ i, i < 59 → 1 ≤ i →
      900000 ≤ pulse_end (scan_pulses tlist vlist n) (i + 1)
        - pulse_end (scan_pulses tlist vlist n) i ∧
      pulse_end (scan_pulses tlist vlist n) (i + 1)
        - pulse_end (scan_pulses tlist vlist n) i ≤ 1100000)
    (hbits : ∀ j, j < 59 →
      (bits j = 0 ∧ is_short (pulse_dur (scan_pulses tlist vlist n) (1 + j)) = true) ∨
      (bits j = 1 ∧ is_long (pulse_dur (scan_pulses tlist vlist n) (1 + j)) = true)) :
    (diagnose (extract tlist vlist n)).frames = [((mn : Int), (hr : Int), (day : Int))] ∧
    (analyze tlist vlist n).quality_score = 100 ∧
    80 ≤ (analyze tlist vlist n).quality_score ∧
    (analyze tlist vlist n).line2 = two_digits hr ++ ":" ++ two_digits mn := by
  obtain ⟨hl1, hl3, hst, hdu, hend⟩ :=
    extract_fields_of_scan tlist vlist n hn hv hinc hbound
  rw [hcount] at hl1 hl3 hend
  have hsub : ∀ i, i + 1 < 60 →
      u32sub ((extract tlist vlist n).rising_times.getD (i + 1) 0)
        ((extract tlist vlist n).rising_times.getD i 0)
      = pulse_end (scan_pulses tlist vlist n) (i + 1)
        - pulse_end (scan_pulses tlist vlist n) i ∨
      pulse_end (scan_pulses tlist vlist n) (i + 1) < pulse_end (scan_pulses tlist vlist n) i := by
    intro i hi
    rw [(hend i (by omega)).1, (hend (i + 1) hi).1]
    rcases Nat.lt_or_ge (pulse_end (scan_pulses tlist vlist n) (i + 1))
      (pulse_end (scan_pulses tlist vlist n) i) with h | h
    · exact Or.inr h
    · exact Or.inl (u32sub_eq _ _ h (hend (i + 1) hi).2)
  apply clean_frame_window tlist vlist n bits mn hr day wd mon yr hn hmn hhr hday hwd hmon
    hyr hf hl1 hl3
  · rw [hdu]; exact hfirst
  · rw [hst, hst]
    have h1 := (hend 1 (by decide)).2
    unfold pulse_end at h1
    unfold TICK59_MIN_US at hgap ⊢
    rw [u32sub_eq _ _ (by omega) (by omega)]
    exact hgap
  · unfold TICK59_MIN_US at hrgap ⊢
    have h01 := hsub 0 (by decide)
    rw [Nat.zero_add] at h01
    rcases h01 with h | h
    · rw [h]; exact hrgap
    · omega
  · intro i hi h1
    have hs := hsec i hi h1
    rcases hsub i (by omega) with h | h
    · rw [h]; exact hs
    · omega
  · intro j hj
    rw [hdu]
    exact hbits j hj

set_option maxRecDepth 100000 in
/-- C11 witness: the S4 ring (one SHORT pulse, then 1.9 s later the 59 pulses of the
frame for min=37, hr=14, day=5, weekday=3, mon=11, year=24) gives line2 = "14:37". -/
theorem clean_minute_frame_witness :
    snapshot (run_irq boot (edges_of s4_pulses))
      = ((window_of s4_pulses).1, (window_of s4_pulses).2, 121) ∧
    two_digits 14 ++ ":" ++ two_digits 37 = "14:37" ∧
    ((diagnose (extract (window_of s4_pulses).1 (window_of s4_pulses).2 121)).frames
        = [(((37 : Nat) : Int), ((14 : Nat) : Int), ((5 : Nat) : Int))] ∧
     (analyze (window_of s4_pulses).1 (window_of s4_pulses).2 121).quality_score = 100 ∧
     80 ≤ (analyze (window_of s4_pulses).1 (window_of s4_pulses).2 121).quality_score ∧
     (analyze (window_of s4_pulses).1 (window_of s4_pulses).2 121).line2
        = two_digits 14 ++ ":" ++ two_digits 37) := by
  have hv : ∀ i, i < 121 → (window_of s4_pulses).2.getD i 0 ≤ 1 := by decide
  have hinc : ∀ i, i < 120 →
      (window_of s4_pulses).1.getD i 0 < (window_of s4_pulses).1.getD (i + 1) 0 := by decide
  have hbound : ∀ i, i < 121 → (window_of s4_pulses).1.getD i 0 < 2 ^ 32 := by decide
  have hframe : IsFrameOf (frame_of s4_frame) 37 14 5 3 11 24 := by
    unfold IsFrameOf; decide
  have hcount : (scan_pulses (window_of s4_pulses).1 (window_of s4_pulses).2 121).length
      = 60 := by decide
  have hsec : ∀ i, i < 59 → 1 ≤ i →
      900000 ≤ pulse_end (scan_pulses (window_of s4_pulses).1 (window_of s4_pulses).2 121)
          (i + 1)
        - pulse_end (scan_pulses (window_of s4_pulses).1 (window_of s4_pulses).2 121) i ∧
      pulse_end (scan_pulses (window_of s4_pulses).1 (window_of s4_pulses).2 121) (i + 1)
        - pulse_end (scan_pulses (window_of s4_pulses).1 (window_of s4_pulses).2 121) i
        ≤ 1100000 := by decide
  have hbits : ∀ j, j < 59 →
      (frame_of s4_frame j = 0 ∧ is_short (pulse_dur
        (scan_pulses (window_of s4_pulses).1 (window_of s4_pulses).2 121) (1 + j)) = true) ∨
      (frame_of s4_frame j = 1 ∧ is_long (pulse_dur
        (scan_pulses (window_of s4_pulses).1 (window_of s4_pulses).2 121) (1 + j)) = true) := by
    decide
  exact ⟨by decide, by decide,
    clean_minute_frame (window_of s4_pulses).1 (window_of s4_pulses).2 121 (frame_of s4_frame)
      37 14 5 3 11 24 (by decide) hv (fun i hi => hinc i (by omega)) hbound (by decide)
      (by decide) (by decide) (by decide) (by decide) (by decide) hframe hcount (by decide)
      (by decide) (by decide) hsec hbits⟩

end DCF77
